import Mathlib

/-!
# fast_md_viewer: word wrapping, viewport arithmetic and document flattening

A shallow embedding of `src/c/fast_md_viewer.c`.

* C strings are lists of characters (the bytes before the terminating NUL).
* `TTF_SizeText` is an arbitrary function from strings to pixel widths.
* A `float` value is the rational number it denotes.  Every float operation
  (`+`, `-`, `*`, `/`, the conversion of an `int`, a float literal) yields its
  exact result rounded to the nearest binary32 value, ties to even (`f32`);
  the exponent range is unbounded, all values that occur being zero or
  normal.  `(int)` casts truncate toward zero.  C `int` values are unbounded
  integers.
* Memory allocation is assumed to succeed.
* The cmark parse tree is an inductive tree; the iterator is its pre-order
  walk (only ENTER events are acted upon by the program).
* The content of an array element that the program reads without having
  written it is a parameter (`garbage`).
* Of a render pass only the line indices read and the vertical cursor `y` are
  tracked; whether the draw calls for a wrapped line succeed is a parameter.
-/

namespace FastMdViewer

/-! ## Constants -/

/-- The macro `INITIAL_WINDOW_WIDTH`. -/
def INITIAL_WINDOW_WIDTH : Int := 800

/-- The macro `INITIAL_WINDOW_HEIGHT`. -/
def INITIAL_WINDOW_HEIGHT : Int := 600

/-- The macro `FONT_SIZE`. -/
def FONT_SIZE : Int := 16

/-- The macro `LINE_HEIGHT`, defined as `(FONT_SIZE + 4)`. -/
def LINE_HEIGHT : Int := FONT_SIZE + 4

/-- Capacity of the array `TextLine lines[10000]` in `main`. -/
def LINES_CAP : Nat := 10000

/-! ## word_wrap_text (source lines 18-59) -/

/-- A text metrics function: the width `w` that `TTF_SizeText` stores for a
string at the font size in force (`w` keeps its initial 0 when the call fails). -/
abbrev Metrics := List Char → Int

/-- The inner `for` loop of `word_wrap_text` (source lines 28-43).  The list
argument holds the characters `start[i], start[i+1], ...` still to be visited,
`i` is the loop index, `last_space` and `len` are the C locals.  The result is
the value of `len` when the loop is left.  The test `if (!start[i+1]) break`
leaves the loop exactly when the loop condition would, with the same `len`. -/
def scan (m : Metrics) (max_width : Int) (start : List Char) :
    List Char → Nat → Int → Nat → Nat
  | [], _, _, len => len
  | c :: rest, i, last_space, _ =>
    let last_space := if c = ' ' then (i : Int) else last_space
    if m (start.take (i + 1)) > max_width then
      (if last_space ≥ 0 then (last_space + 1).toNat else i)
    else scan m max_width start rest (i + 1) last_space (i + 1)

/-- The value of `len` computed by one pass of the outer loop for the
remainder `start`: `int len = 0, last_space = -1; for (int i = 0; ...)`. -/
def fit (m : Metrics) (max_width : Int) (start : List Char) : Nat :=
  scan m max_width start start 0 (-1) 0

/-- The statement `while (*start == ' ') start++;`. -/
def skip_spaces (s : List Char) : List Char := s.dropWhile (· = ' ')

/-- The outer `while (*start)` loop (source lines 25-55), bounded by a fuel
counter: `none` means the fuel ran out before the loop ended.  The lines are
returned in the order in which the C code stores them in `lines[count++]`. -/
def word_wrap_loop (m : Metrics) (max_width : Int) :
    Nat → List Char → Option (List (List Char))
  | 0, _ => none
  | fuel + 1, start =>
    if start = [] then some []
    else
      let len := fit m max_width start
      if len = 0 then some []
      else
        (word_wrap_loop m max_width fuel (skip_spaces (start.drop len))).map
          (fun ls => start.take len :: ls)

/-- The function `word_wrap_text`: the wrapped lines of `text`.  The fuel
`text.length + 1` always suffices (theorem `word_wrap_loop_fuel`). -/
def word_wrap_text (m : Metrics) (max_width : Int) (text : List Char) :
    List (List Char) :=
  (word_wrap_loop m max_width (text.length + 1) text).getD []

/-- A sample metrics function: every character is one pixel wide. -/
def unit_metrics : Metrics := fun s => (s.length : Int)

/-- Joining wrapped lines as the specification describes: a single space is
inserted after a line that was broken at a space (such a line ends with that
space; a line broken at a character boundary contains no space at all), and
nothing otherwise. -/
def join_lines : List (List Char) → List Char
  | [] => []
  | [l] => l
  | l :: l2 :: ls =>
    l ++ (if l.getLast? = some ' ' then [' '] else []) ++ join_lines (l2 :: ls)

/-- Splitting a text into its maximal space-free tokens; `cur` is the token
being read, most recent character first. -/
def words_aux (cur : List Char) : List Char → List (List Char)
  | [] => if cur = [] then [] else [cur.reverse]
  | c :: cs =>
    if c = ' ' then
      (if cur = [] then words_aux [] cs else cur.reverse :: words_aux [] cs)
    else words_aux (c :: cur) cs

/-- The whitespace normal form of a text: its sequence of space-free tokens. -/
def words (s : List Char) : List (List Char) := words_aux [] s

/-! ## Viewport state and event handling (source lines 306-365) -/

/-- The C cast `(int)x` of a float value: truncation toward zero. -/
def c_int (x : ℚ) : Int := if 0 ≤ x then ⌊x⌋ else ⌈x⌉

/-- Rounding of a rational to the nearest integer, ties to the even one. -/
def round_half_even (y : ℚ) : Int :=
  let f := ⌊y⌋
  let r := y - (f : ℚ)
  if r < 1 / 2 then f
  else if 1 / 2 < r then f + 1
  else if f % 2 = 0 then f else f + 1

/-- Rounding to binary32: the value with a 24-bit significand nearest to `x`,
ties to even.  For `2^e <= |x| < 2^(e+1)` the spacing of the binary32 values
is `2^(e-23)`. -/
def f32 (x : ℚ) : ℚ :=
  if x = 0 then 0
  else
    let e := Int.log 2 |x|
    (round_half_even (x / (2 : ℚ) ^ (e - 23)) : ℚ) * (2 : ℚ) ^ (e - 23)

/-- The float literal `0.05f`. -/
def FLT_0_05 : ℚ := f32 (1 / 20)

/-- The mutable variables read and written by the event loop. -/
structure ViewState where
  offset_y : Int
  max_offset : Int
  zoom : ℚ
  window_width : Int
  window_height : Int
  deriving DecidableEq

/-- The events distinguished by the `switch` in the main loop.  `MOUSEWHEEL`
carries `SDL_GetModState() & KMOD_CTRL` and `event.wheel.y`; `WINDOWEVENT`
carries whether `event.window.event` is `SIZE_CHANGED` or `EXPOSED`, and the
size that `SDL_GetWindowSize` would report. -/
inductive SDL_Event where
  | QUIT
  | MOUSEWHEEL (ctrl : Bool) (y : Int)
  | WINDOWEVENT (size_changed_or_exposed : Bool) (w h : Int)
  | OTHER
  deriving DecidableEq

/-- The state before the first event (source lines 12, 123-125, 306-308);
`w` and `h` are the size reported by the first `SDL_GetWindowSize`. -/
def initial_state (line_count w h : Int) : ViewState :=
  let max_offset := line_count * LINE_HEIGHT - h
  { offset_y := 0
    max_offset := if max_offset < 0 then 0 else max_offset
    zoom := 1
    window_width := w
    window_height := h }

/-- The branch `SDL_GetModState() & KMOD_CTRL` of the mouse-wheel case:
`zoom += 0.05f` or `zoom -= 0.05f` in float arithmetic, then the clamp against
`3.0f` or `0.5f` (both exact in binary32). -/
def zoom_step (zoom : ℚ) (y : Int) : ℚ :=
  if y > 0 then
    let z := f32 (zoom + FLT_0_05)
    if z > 3 then 3 else z
  else if y < 0 then
    let z := f32 (zoom - FLT_0_05)
    if z < 1 / 2 then 1 / 2 else z
  else zoom

/-- One pass through the `switch (event.type)` (source lines 315-351): the new
state and the value of `redraw`.  `QUIT` only clears `running`, which
`run_events` accounts for.  The constant 30 converts to float exactly; the
product `line_count * LINE_HEIGHT` is an `int` converted to float. -/
def handle_event (line_count : Int) (s : ViewState) : SDL_Event → ViewState × Bool
  | .QUIT => (s, false)
  | .MOUSEWHEEL true y => ({ s with zoom := zoom_step s.zoom y }, true)
  | .MOUSEWHEEL false y =>
    let o := s.offset_y - y * c_int (f32 (30 * s.zoom))
    let o := if o < 0 then 0 else o
    let o := if o > s.max_offset then s.max_offset else o
    ({ s with offset_y := o }, true)
  | .WINDOWEVENT true w h =>
    let mo := c_int (f32 (f32 ((line_count * LINE_HEIGHT : Int) : ℚ) * s.zoom)) - h
    let mo := if mo < 0 then 0 else mo
    let o := if s.offset_y > mo then mo else s.offset_y
    ({ s with window_width := w, window_height := h, max_offset := mo, offset_y := o }, true)
  | .WINDOWEVENT false _ _ => (s, false)
  | .OTHER => (s, true)

/-- The main loop run over a finite event sequence; it stops at `QUIT`. -/
def run_events (line_count : Int) : ViewState → List SDL_Event → ViewState
  | s, [] => s
  | s, .QUIT :: _ => s
  | s, e :: es => run_events line_count (handle_event line_count s e).1 es

/-- The float expression `n / (LINE_HEIGHT * zoom)` for an `int` variable `n`:
`n` is converted to float, the constant `LINE_HEIGHT` converts exactly, the
product and the quotient are rounded. -/
def line_quotient (n : Int) (zoom : ℚ) : ℚ :=
  f32 (f32 (n : ℚ) / f32 ((LINE_HEIGHT : ℚ) * zoom))

/-- The local `visible_lines` (source line 362). -/
def visible_lines (window_height : Int) (zoom : ℚ) : Int :=
  c_int (line_quotient window_height zoom) + 1

/-- The local `start_line` (source line 363). -/
def start_line (offset_y : Int) (zoom : ℚ) : Int :=
  c_int (line_quotient offset_y zoom)

/-- The local `end_line` after the clamp (source lines 364-365). -/
def end_line (line_count offset_y window_height : Int) (zoom : ℚ) : Int :=
  let e := start_line offset_y zoom + visible_lines window_height zoom
  if e > line_count then line_count else e

/-- The bound on the scroll offset that the specification states for the
current zoom and window height. -/
def spec_max_offset (line_count window_height : Int) (zoom : ℚ) : Int :=
  max 0 (⌈((line_count * LINE_HEIGHT : Int) : ℚ) * zoom⌉ - window_height)

/-! ## Document flattening (source lines 62-83, 181-292) -/

/-- The node types of the cmark library. -/
inductive cmark_node_type where
  | DOCUMENT | BLOCK_QUOTE | LIST | ITEM | CODE_BLOCK | HTML_BLOCK
  | CUSTOM_BLOCK | PARAGRAPH | HEADING | THEMATIC_BREAK
  | TEXT | SOFTBREAK | LINEBREAK | CODE | HTML_INLINE | CUSTOM_INLINE
  | EMPH | STRONG | LINK | IMAGE
  deriving DecidableEq, Repr

/-- A node of the parse tree with what the program reads from it: its type,
`cmark_node_get_literal` (`none` for NULL), `cmark_node_get_heading_level`,
and its children in document order. -/
inductive cmark_node where
  | mk (type : cmark_node_type) (literal : Option (List Char))
      (heading_level : Int) (children : List cmark_node)

/-- What the program reads from an ancestor: its type and heading level. -/
structure Ancestor where
  type : cmark_node_type
  heading_level : Int
  deriving DecidableEq

/-- The struct `SDL_Color`. -/
structure SDL_Color where
  r : Nat
  g : Nat
  b : Nat
  a : Nat
  deriving DecidableEq, Repr

/-- The struct `TextLine` (source lines 73-83). -/
structure TextLine where
  text : List Char
  font_size : Int
  color : SDL_Color
  bold : Int
  indent : Int
  monospace : Int
  is_list_item : Int
  is_hr : Int
  is_quote : Int
  deriving DecidableEq, Repr

/-- The function `get_list_level`, applied to a node given as the chain of
node types from the node itself up to the root. -/
def get_list_level : List cmark_node_type → Int
  | [] => 0
  | t :: up => (if t = .LIST then 1 else 0) + get_list_level up

/-- The fields written for every text node before the parent is inspected
(source lines 194-202). -/
def plain_line (text : List Char) : TextLine :=
  { text := text, font_size := FONT_SIZE, color := ⟨0, 0, 0, 255⟩, bold := 0,
    indent := 0, monospace := 0, is_list_item := 0, is_hr := 0, is_quote := 0 }

/-- The record stored for a text node (source lines 194-225); `ancestors` is
the chain of the node's ancestors, the parent first. -/
def text_line (ancestors : List Ancestor) (text : List Char) : TextLine :=
  let l := plain_line text
  match ancestors with
  | [] => l
  | parent :: up =>
    if parent.type = .HEADING then
      { l with font_size := FONT_SIZE + 4 * (7 - parent.heading_level), bold := 1 }
    else if parent.type = .STRONG then { l with bold := 1 }
    else if parent.type = .LIST then
      { l with indent := 2 * get_list_level (parent.type :: up.map Ancestor.type) }
    else if parent.type = .ITEM then
      match up with
      | [] => { l with is_list_item := 1 }
      | list :: _ =>
        if list.type = .LIST then
          { l with is_list_item := 1, indent := 2 * get_list_level (up.map Ancestor.type) }
        else { l with is_list_item := 1 }
    else if parent.type = .CODE_BLOCK then { l with monospace := 1 }
    else if parent.type = .BLOCK_QUOTE then { l with is_quote := 1, indent := l.indent + 2 }
    else l

/-- The body of the traversal loop for one ENTER event (source lines 190-291):
the array `lines` after the event. -/
def on_enter (ancestors : List Ancestor) (type : cmark_node_type)
    (literal : Option (List Char)) (lines : List TextLine) : List TextLine :=
  if type = .TEXT then
    match literal with
    | some text => if text.length > 0 then lines ++ [text_line ancestors text] else lines
    | none => lines
  else if type = .PARAGRAPH ∨ type = .ITEM ∨ type = .LIST then
    if lines.length > 0 ∧ lines.length < LINES_CAP then lines ++ [plain_line []] else lines
  else if type = .CODE_BLOCK then
    if lines.length < LINES_CAP then
      match literal with
      | some code => lines ++ [{ plain_line code with indent := 2, monospace := 1 }]
      | none => lines
    else lines
  else if type = .BLOCK_QUOTE then
    if lines.length < LINES_CAP then
      lines ++ [{ plain_line [] with indent := 2, is_quote := 1 }]
    else lines
  else if type = .THEMATIC_BREAK then
    if lines.length < LINES_CAP then
      lines ++ [{ plain_line ['-', '-', '-'] with is_hr := 1 }]
    else lines
  else lines

mutual
/-- The traversal loop (source lines 186-292) over the subtree of one node:
its ENTER event, then its children.  The loop condition `line_count < 10000`
is tested before every event; once it fails no later event is processed. -/
def walk (ancestors : List Ancestor) : cmark_node → List TextLine → List TextLine
  | .mk type literal heading_level children, lines =>
    if lines.length < LINES_CAP then
      walk_children (⟨type, heading_level⟩ :: ancestors) children
        (on_enter ancestors type literal lines)
    else lines
/-- The traversal loop over a sequence of sibling subtrees. -/
def walk_children (ancestors : List Ancestor) : List cmark_node → List TextLine → List TextLine
  | [], lines => lines
  | c :: cs, lines => walk_children ancestors cs (walk ancestors c lines)
end

/-- The array `lines` after the traversal loop, started empty at the root. -/
def flatten (doc : cmark_node) : List TextLine := walk [] doc []

/-- A text leaf with the given literal. -/
def text_node (s : List Char) : cmark_node := .mk .TEXT (some s) 0 []

/-- An inner node without literal. -/
def inner_node (t : cmark_node_type) (children : List cmark_node) : cmark_node :=
  .mk t none 0 children

/-- A heading of the given level. -/
def heading_node (level : Int) (children : List cmark_node) : cmark_node :=
  .mk .HEADING none level children

/-- The parse tree of the one-line document `## Title`. -/
def title_doc : cmark_node :=
  inner_node .DOCUMENT [heading_node 2 [text_node "Title".toList]]

/-- The parse tree of the one-line document `## *Title*`: the text is inside
an emphasis node inside the heading. -/
def emph_title_doc : cmark_node :=
  inner_node .DOCUMENT [heading_node 2 [inner_node .EMPH [text_node "Title".toList]]]

/-- The parse tree of the one-line document `- - b`: a list whose single item
holds a nested list whose single item holds the paragraph `b`. -/
def nested_list_doc : cmark_node :=
  inner_node .DOCUMENT
    [inner_node .LIST
      [inner_node .ITEM
        [inner_node .LIST
          [inner_node .ITEM
            [inner_node .PARAGRAPH [text_node "b".toList]]]]]]

/-! ## The placeholder line (source lines 296-303) -/

/-- The text of the placeholder line. -/
def NO_CONTENT : List Char := "No content to display".toList

/-- The record `lines[0]` after the block `if (line_count == 0)`: only `text`,
`font_size`, `color` and `bold` are assigned; the other five fields keep what
the uninitialised array element `lines[0]` held before, given as `garbage`. -/
def placeholder (garbage : TextLine) : TextLine :=
  { garbage with
    text := NO_CONTENT, font_size := FONT_SIZE, color := ⟨0, 0, 0, 255⟩, bold := 0 }

/-- The array `lines[0 .. line_count)` that the event loop works on: the
result of the traversal, or the placeholder line when the traversal stored
nothing.  `garbage` is the prior content of the array element `lines[0]`. -/
def document (garbage : TextLine) (doc : cmark_node) : List TextLine :=
  let lines := flatten doc
  if lines.length = 0 then [placeholder garbage] else lines

/-- A document node without children, the parse tree of an empty file. -/
def empty_doc : cmark_node := inner_node .DOCUMENT []

/-- The parse tree of a document with the two paragraphs `a` and `b`. -/
def two_paragraph_doc : cmark_node :=
  inner_node .DOCUMENT
    [inner_node .PARAGRAPH [text_node "a".toList], inner_node .PARAGRAPH [text_node "b".toList]]

/-- A blank spacer line as stored for a paragraph, item or list: empty text
with `is_quote`, `monospace` and `is_hr` all zero. -/
def is_plain_spacer (b : TextLine) : Prop :=
  b.text = [] ∧ b.is_quote = 0 ∧ b.monospace = 0 ∧ b.is_hr = 0

instance (b : TextLine) : Decidable (is_plain_spacer b) := by
  unfold is_plain_spacer
  infer_instance

/-- The property that the first line of the array, if there is one, is not a
blank spacer. -/
def first_not_spacer (lines : List TextLine) : Prop :=
  ∀ b, lines.head? = some b → ¬ is_plain_spacer b

/-! ## Flattening without the bound on the number of lines -/

/-- The body of the traversal loop as `on_enter`, with every test
`line_count < 10000` left out: what one ENTER event stores when the array is
unbounded. -/
def on_enter_uncapped (ancestors : List Ancestor) (type : cmark_node_type)
    (literal : Option (List Char)) (lines : List TextLine) : List TextLine :=
  if type = .TEXT then
    match literal with
    | some text => if text.length > 0 then lines ++ [text_line ancestors text] else lines
    | none => lines
  else if type = .PARAGRAPH ∨ type = .ITEM ∨ type = .LIST then
    if lines.length > 0 then lines ++ [plain_line []] else lines
  else if type = .CODE_BLOCK then
    match literal with
    | some code => lines ++ [{ plain_line code with indent := 2, monospace := 1 }]
    | none => lines
  else if type = .BLOCK_QUOTE then
    lines ++ [{ plain_line [] with indent := 2, is_quote := 1 }]
  else if type = .THEMATIC_BREAK then
    lines ++ [{ plain_line ['-', '-', '-'] with is_hr := 1 }]
  else lines

mutual
/-- The traversal as `walk`, without the loop condition `line_count < 10000`. -/
def walk_uncapped (ancestors : List Ancestor) : cmark_node → List TextLine → List TextLine
  | .mk type literal heading_level children, lines =>
    walk_children_uncapped (⟨type, heading_level⟩ :: ancestors) children
      (on_enter_uncapped ancestors type literal lines)
/-- The unbounded traversal over a sequence of sibling subtrees. -/
def walk_children_uncapped (ancestors : List Ancestor) :
    List cmark_node → List TextLine → List TextLine
  | [], lines => lines
  | c :: cs, lines => walk_children_uncapped ancestors cs (walk_uncapped ancestors c lines)
end

/-- The sequence of lines that flattening the tree without a cap emits. -/
def flatten_uncapped (doc : cmark_node) : List TextLine := walk_uncapped [] doc []

/-! ## Rendering of a frame (source lines 362-434) -/

/-- The text metrics of the font for a style (`true` for `TTF_STYLE_BOLD`) and
a font size, as set by `TTF_SetFontStyle` and `TTF_SetFontSize`. -/
abbrev FontMetrics := Bool → Int → Metrics

/-- The four bytes of the array `bullet[4]`, the UTF-8 encoding of U+2022
followed by a space.  The array has no room for a terminating NUL; `strcpy` is
taken to copy exactly these four bytes. -/
def bullet : List Char := [Char.ofNat 226, Char.ofNat 128, Char.ofNat 162, ' ']

/-- The amount `(int)(LINE_HEIGHT * zoom)` by which `y` is advanced. -/
def line_advance (zoom : ℚ) : Int := c_int (f32 ((LINE_HEIGHT : ℚ) * zoom))

/-- The body of the render loop for one line (source lines 372-433): the value
of `y` after it.  `draws l` tells whether both `TTF_RenderUTF8_Blended` and
`SDL_CreateTextureFromSurface` succeed for the wrapped line `l`; when one of
them fails the line is skipped by `continue` and `y` is not advanced. -/
def render_block (metrics : FontMetrics) (draws : List Char → Bool) (zoom : ℚ)
    (window_width : Int) (b : TextLine) (y : Int) : Int :=
  let font_size := c_int (f32 (f32 (b.font_size : ℚ) * zoom))
  let x := 10 + b.indent * 20
  if b.is_hr ≠ 0 then y + line_advance zoom
  else
    let render_text := if b.is_list_item ≠ 0 then bullet ++ b.text else b.text
    let wrapped :=
      word_wrap_text (metrics (b.bold ≠ 0) font_size) (window_width - x - 10) render_text
    wrapped.foldl (fun y l => if draws l then y + line_advance zoom else y) y

/-- The values taken by `i` in `for (int i = start_line; i < end_line; i++)`,
in order: the indices at which the array `lines` is read. -/
def frame_indices (start_line end_line : Int) : List Int :=
  (List.range (end_line - start_line).toNat).map (fun (k : Nat) => start_line + (k : Int))

/-- The indices read by the render pass for a viewport state. -/
def read_indices (line_count offset_y window_height : Int) (zoom : ℚ) : List Int :=
  frame_indices (start_line offset_y zoom) (end_line line_count offset_y window_height zoom)

/-- One render pass (source lines 362-434): the final value of `y`.  A read
outside the list stands for a read outside `lines[0 .. line_count)`. -/
def render_frame (metrics : FontMetrics) (draws : List Char → Bool)
    (lines : List TextLine) (s : ViewState) : Int :=
  (read_indices (lines.length : Int) s.offset_y s.window_height s.zoom).foldl
    (fun y i =>
      match lines.get? i.toNat with
      | some b => render_block metrics draws s.zoom s.window_width b y
      | none => y)
    0

/-! ## Properties of the inner loop -/

theorem scan_le (m : Metrics) (w : Int) (s : List Char) :
    ∀ (rest : List Char) (i : Nat) (ls : Int) (len : Nat),
      i + rest.length = s.length → ls < i → len ≤ s.length →
      scan m w s rest i ls len ≤ s.length := by
  intro rest
  induction rest with
  | nil => intro i ls len _ _ hlen; simpa [scan] using hlen
  | cons c rest ih =>
    intro i ls len hi hls _
    simp only [List.length_cons] at hi
    simp only [scan]
    split_ifs <;>
      first
        | omega
        | (apply ih <;> omega)

theorem fit_le (m : Metrics) (w : Int) (s : List Char) : fit m w s ≤ s.length := by
  unfold fit
  exact scan_le m w s s 0 (-1) 0 (by simp) (by simp) (by simp)

/-- Scanning a string `L` either behaves as scanning any extension `L ++ tl`
(an overflow was met inside `L`), or runs to the end of `L`. -/
theorem scan_append (m : Metrics) (w : Int) (L tl : List Char) :
    ∀ (rest : List Char) (i : Nat) (ls : Int) (len : Nat),
      i + rest.length = L.length →
      scan m w L rest i ls len = scan m w (L ++ tl) (rest ++ tl) i ls len ∨
      scan m w L rest i ls len = (if rest = [] then len else L.length) := by
  intro rest
  induction rest with
  | nil => intro i ls len _; right; simp [scan]
  | cons c rest ih =>
    intro i ls len hi
    simp only [List.length_cons] at hi
    have htake : (L ++ tl).take (i + 1) = L.take (i + 1) :=
      List.take_append_of_le_length (by omega)
    simp only [scan, List.cons_append, htake]
    by_cases ho : m (L.take (i + 1)) > w
    · left; simp [ho]
    · simp only [ho, if_false]
      rcases ih (i + 1) (if c = ' ' then (i : Int) else ls) (i + 1) (by omega) with h | h
      · left; exact h
      · right
        rw [h]
        by_cases hr : rest = []
        · subst hr; simp at hi; simp; omega
        · simp [hr]

/-- The break position of a line is also the break position of the line
taken alone. -/
theorem fit_take (m : Metrics) (w : Int) (s : List Char) :
    fit m w (s.take (fit m w s)) = fit m w s := by
  have hle := fit_le m w s
  have hlen : (s.take (fit m w s)).length = fit m w s := by
    simp [List.length_take, hle]
  have h := scan_append m w (s.take (fit m w s)) (s.drop (fit m w s))
    (s.take (fit m w s)) 0 (-1) 0 (by simp)
  rw [List.take_append_drop] at h
  rcases h with h | h
  · exact h
  · have h2 : fit m w (s.take (fit m w s)) =
        (if s.take (fit m w s) = [] then 0 else (s.take (fit m w s)).length) := h
    rw [h2]
    split_ifs with he
    · rw [he] at hlen; simpa using hlen
    · exact hlen

/-! ## Properties of the outer loop -/

theorem skip_spaces_length_le (s : List Char) : (skip_spaces s).length ≤ s.length := by
  induction s with
  | nil => simp [skip_spaces]
  | cons c t ih =>
    unfold skip_spaces at *
    rw [List.dropWhile_cons]
    split_ifs
    · simp only [List.length_cons]; omega
    · exact le_rfl

theorem rest_length_lt (m : Metrics) (w : Int) (s : List Char) (hs : s ≠ [])
    (hf : fit m w s ≠ 0) :
    (skip_spaces (s.drop (fit m w s))).length < s.length := by
  have h1 := skip_spaces_length_le (s.drop (fit m w s))
  have h2 : (s.drop (fit m w s)).length = s.length - fit m w s := List.length_drop _ _
  have h3 : 0 < s.length := List.length_pos.mpr hs
  omega

/-- Any fuel above the length of the remainder gives the same, defined, result. -/
theorem word_wrap_loop_stable (m : Metrics) (w : Int) :
    ∀ (fuel : Nat) (s : List Char), s.length < fuel →
      ∃ ls, ∀ k, word_wrap_loop m w (fuel + k) s = some ls := by
  intro fuel
  induction fuel with
  | zero => intro s h; omega
  | succ n ih =>
    intro s h
    by_cases hs : s = []
    · refine ⟨[], fun k => ?_⟩
      rw [show n + 1 + k = (n + k) + 1 by omega]
      simp [word_wrap_loop, hs]
    · by_cases hf : fit m w s = 0
      · refine ⟨[], fun k => ?_⟩
        rw [show n + 1 + k = (n + k) + 1 by omega]
        simp [word_wrap_loop, hs, hf]
      · have hlt := rest_length_lt m w s hs hf
        obtain ⟨ls, hls⟩ := ih (skip_spaces (s.drop (fit m w s))) (by omega)
        refine ⟨s.take (fit m w s) :: ls, fun k => ?_⟩
        rw [show n + 1 + k = (n + k) + 1 by omega]
        simp [word_wrap_loop, hs, hf, hls k]

theorem word_wrap_loop_fuel (m : Metrics) (w : Int) (fuel : Nat) (s : List Char)
    (h : s.length < fuel) :
    word_wrap_loop m w fuel s = some (word_wrap_text m w s) := by
  obtain ⟨ls, hls⟩ := word_wrap_loop_stable m w (s.length + 1) s (by omega)
  have h1 : word_wrap_text m w s = ls := by
    have := hls 0
    simp only [Nat.add_zero] at this
    simp [word_wrap_text, this]
  have h2 := hls (fuel - (s.length + 1))
  rw [show s.length + 1 + (fuel - (s.length + 1)) = fuel by omega] at h2
  rw [h1, h2]

theorem word_wrap_text_nil (m : Metrics) (w : Int) : word_wrap_text m w [] = [] := by
  simp [word_wrap_text, word_wrap_loop]

theorem word_wrap_text_stop (m : Metrics) (w : Int) (s : List Char)
    (hf : fit m w s = 0) : word_wrap_text m w s = [] := by
  simp [word_wrap_text, word_wrap_loop, hf]

theorem word_wrap_text_step (m : Metrics) (w : Int) (s : List Char) (hs : s ≠ [])
    (hf : fit m w s ≠ 0) :
    word_wrap_text m w s =
      s.take (fit m w s) :: word_wrap_text m w (skip_spaces (s.drop (fit m w s))) := by
  have hlt := rest_length_lt m w s hs hf
  have h := word_wrap_loop_fuel m w s.length (skip_spaces (s.drop (fit m w s))) hlt
  simp [word_wrap_text, word_wrap_loop, hs, hf, h]

/-- Induction along the passes of the outer loop. -/
theorem wrap_induction (m : Metrics) (w : Int) (P : List Char → Prop)
    (hnil : P [])
    (hstop : ∀ s, s ≠ [] → fit m w s = 0 → P s)
    (hstep : ∀ s, s ≠ [] → fit m w s ≠ 0 → P (skip_spaces (s.drop (fit m w s))) → P s) :
    ∀ s, P s := by
  have key : ∀ (n : Nat) (s : List Char), s.length < n → P s := by
    intro n
    induction n with
    | zero => intro s h; omega
    | succ n ih =>
      intro s h
      by_cases hs : s = []
      · rw [hs]; exact hnil
      · by_cases hf : fit m w s = 0
        · exact hstop s hs hf
        · have hlt := rest_length_lt m w s hs hf
          exact hstep s hs hf (ih _ (by omega))
  exact fun s => key (s.length + 1) s (by omega)

theorem word_wrap_text_bounds (m : Metrics) (w : Int) :
    ∀ s, (word_wrap_text m w s).length ≤ s.length ∧ ∀ l ∈ word_wrap_text m w s, l ≠ [] := by
  apply wrap_induction m w
  · simp [word_wrap_text_nil]
  · intro s _ hf
    simp [word_wrap_text_stop m w s hf]
  · intro s hs hf ih
    have hlt := rest_length_lt m w s hs hf
    rw [word_wrap_text_step m w s hs hf]
    refine ⟨by simp only [List.length_cons]; omega, ?_⟩
    intro l hl
    rcases List.mem_cons.mp hl with h | h
    · rw [h]
      intro hnil
      rcases List.take_eq_nil_iff.mp hnil with h0 | h0
      · exact hf h0
      · exact hs h0
    · exact ih.2 l h

/-- Every emitted line is the fitting part of some non-empty remainder. -/
theorem mem_word_wrap_text (m : Metrics) (w : Int) :
    ∀ s, ∀ l ∈ word_wrap_text m w s,
      ∃ r : List Char, r ≠ [] ∧ fit m w r ≠ 0 ∧ l = r.take (fit m w r) := by
  apply wrap_induction m w
  · simp [word_wrap_text_nil]
  · intro s _ hf
    simp [word_wrap_text_stop m w s hf]
  · intro s hs hf ih l hl
    rw [word_wrap_text_step m w s hs hf] at hl
    rcases List.mem_cons.mp hl with h | h
    · exact ⟨s, hs, hf, h⟩
    · exact ih l h

theorem wrap_fitting_part (m : Metrics) (w : Int) (r : List Char)
    (hf : fit m w r ≠ 0) :
    word_wrap_text m w (r.take (fit m w r)) = [r.take (fit m w r)] := by
  have hle := fit_le m w r
  have hlen : (r.take (fit m w r)).length = fit m w r := by
    simp [List.length_take, hle]
  have hne : r.take (fit m w r) ≠ [] := by
    intro h
    rw [h] at hlen
    exact hf hlen.symm
  have hfit := fit_take m w r
  have hf2 : fit m w (r.take (fit m w r)) ≠ 0 := by rw [hfit]; exact hf
  rw [word_wrap_text_step m w _ hne hf2, hfit]
  have h1 : (r.take (fit m w r)).take (fit m w r) = r.take (fit m w r) := by
    rw [List.take_take]; simp
  have h2 : (r.take (fit m w r)).drop (fit m w r) = [] := by
    apply List.drop_eq_nil_of_le; omega
  rw [h1, h2]
  simp [skip_spaces, word_wrap_text_nil]

/-- The three ways in which the inner loop can end: at the end of the string,
behind a space, or in front of an overflowing character when no space was
seen. -/
theorem scan_shape (m : Metrics) (w : Int) (s : List Char) :
    ∀ (rest pre : List Char) (ls : Int), s = pre ++ rest →
      (ls < 0 ∨ ∃ a b, s = a ++ ' ' :: b ∧ (a.length : Int) = ls) →
      scan m w s rest pre.length ls pre.length = s.length ∨
      (∃ a b, s = a ++ ' ' :: b ∧ scan m w s rest pre.length ls pre.length = a.length + 1) ∨
      (∃ a c b, s = a ++ c :: b ∧ c ≠ ' ' ∧
        scan m w s rest pre.length ls pre.length = a.length ∧ m (a ++ [c]) > w) := by
  intro rest
  induction rest with
  | nil =>
    intro pre ls hs _
    left
    simp [scan, hs]
  | cons c t ih =>
    intro pre ls hs hls
    have htake : s.take (pre.length + 1) = pre ++ [c] := by
      rw [hs, List.take_append_eq_append_take]
      simp
    have hls2 : (if c = ' ' then (pre.length : Int) else ls) < 0 ∨
        ∃ a b, s = a ++ ' ' :: b ∧ (a.length : Int) = (if c = ' ' then (pre.length : Int) else ls) := by
      by_cases hc : c = ' '
      · right
        exact ⟨pre, t, by rw [hs, hc], by simp [hc]⟩
      · simpa [hc] using hls
    simp only [scan, htake]
    by_cases ho : m (pre ++ [c]) > w
    · simp only [ho, if_true]
      by_cases hl : (if c = ' ' then (pre.length : Int) else ls) ≥ 0
      · simp only [hl, if_true]
        rcases hls2 with h | ⟨a, b, hab, hlen⟩
        · omega
        · right; left
          refine ⟨a, b, hab, ?_⟩
          rw [← hlen]
          omega
      · simp only [hl, if_false]
        right; right
        have hc : c ≠ ' ' := by
          intro hc
          apply hl
          simp [hc]
        exact ⟨pre, c, t, hs, hc, rfl, ho⟩
    · simp only [ho, if_false]
      have := ih (pre ++ [c]) (if c = ' ' then (pre.length : Int) else ls) (by simp [hs]) hls2
      simpa [List.length_append] using this

theorem fit_shape (m : Metrics) (w : Int) (s : List Char) :
    fit m w s = s.length ∨
    (∃ a b, s = a ++ ' ' :: b ∧ fit m w s = a.length + 1) ∨
    (∃ a c b, s = a ++ c :: b ∧ c ≠ ' ' ∧ fit m w s = a.length ∧ m (a ++ [c]) > w) := by
  have h := scan_shape m w s s [] (-1) (by simp) (by left; omega)
  simpa [fit] using h

/-- The loop only stops early in front of a non-space character that does not
fit on a line of its own. -/
theorem fit_ne_zero (m : Metrics) (w : Int) (s : List Char) (hs : s ≠ [])
    (hfits : ∀ c ∈ s, c ≠ ' ' → m [c] ≤ w) : fit m w s ≠ 0 := by
  rcases fit_shape m w s with h | ⟨a, b, _, h⟩ | ⟨a, c, b, hab, hc, h, ho⟩
  · rw [h]
    exact fun h0 => hs (List.length_eq_zero.mp h0)
  · rw [h]; omega
  · intro h0
    rw [h0] at h
    have ha : a = [] := List.length_eq_zero.mp h.symm
    subst ha
    have := hfits c (by rw [hab]; simp) hc
    simp at ho
    omega

/-- A line either ends with the space at which it was broken, or nothing is
skipped behind it. -/
theorem fit_break (m : Metrics) (w : Int) (s : List Char) :
    (∃ a, s.take (fit m w s) = a ++ [' ']) ∨
    skip_spaces (s.drop (fit m w s)) = s.drop (fit m w s) := by
  rcases fit_shape m w s with h | ⟨a, b, hab, h⟩ | ⟨a, c, b, hab, hc, h, _⟩
  · right
    rw [h]
    simp [skip_spaces]
  · left
    refine ⟨a, ?_⟩
    rw [h]
    conv_lhs => rw [hab]
    rw [List.take_append_eq_append_take]
    simp
  · right
    rw [h]
    have hd : s.drop a.length = c :: b := by
      conv_lhs => rw [hab]
      simp
    rw [hd]
    simp [skip_spaces, List.dropWhile_cons, hc]

/-! ## Whitespace normal form -/

theorem words_aux_space (cur b : List Char) :
    words_aux cur (' ' :: b) = words_aux cur [' '] ++ words_aux [] b := by
  by_cases h : cur = [] <;> simp [words_aux, h]

theorem words_aux_append_space (a b : List Char) :
    ∀ cur, words_aux cur (a ++ ' ' :: b) = words_aux cur (a ++ [' ']) ++ words_aux [] b := by
  induction a with
  | nil => intro cur; simpa using words_aux_space cur b
  | cons c a ih =>
    intro cur
    by_cases hc : c = ' '
    · by_cases h : cur = [] <;> simp [words_aux, hc, h, ih]
    · simp [words_aux, hc, ih]

theorem words_aux_skip_spaces (b : List Char) :
    words_aux [] (skip_spaces b) = words_aux [] b := by
  induction b with
  | nil => simp [skip_spaces]
  | cons c t ih =>
    by_cases hc : c = ' '
    · have : skip_spaces (c :: t) = skip_spaces t := by
        simp [skip_spaces, List.dropWhile_cons, hc]
      rw [this, ih, hc]
      simp [words_aux]
    · simp [skip_spaces, List.dropWhile_cons, hc]

theorem words_aux_congr (x y : List Char)
    (h : ∀ cur, words_aux cur x = words_aux cur y) (a : List Char) :
    ∀ cur, words_aux cur (a ++ x) = words_aux cur (a ++ y) := by
  induction a with
  | nil => simpa using h
  | cons c a ih =>
    intro cur
    by_cases hc : c = ' '
    · by_cases hcur : cur = [] <;> simp [words_aux, hc, hcur, ih]
    · simp [words_aux, hc, ih]

theorem join_lines_cons (l : List Char) (ls : List (List Char)) :
    join_lines (l :: ls) =
      l ++ ((if ls = [] then [] else if l.getLast? = some ' ' then [' '] else []) ++
        join_lines ls) := by
  cases ls with
  | nil => simp [join_lines]
  | cons l2 ls => simp [join_lines]

/-- When every non-space character fits on a line of its own, the joined lines
and the remainder they were cut from have the same tokens, whatever token is
being read when they start. -/
theorem words_aux_join (m : Metrics) (w : Int) :
    ∀ s, (∀ c ∈ s, c ≠ ' ' → m [c] ≤ w) →
      ∀ cur, words_aux cur (join_lines (word_wrap_text m w s)) = words_aux cur s := by
  apply wrap_induction m w
  · intro _ cur
    simp [word_wrap_text_nil, join_lines]
  · intro s hs hf hfits
    exact absurd hf (fit_ne_zero m w s hs hfits)
  · intro s hs hf ih hfits cur
    have hsub : ∀ c ∈ skip_spaces (s.drop (fit m w s)), c ≠ ' ' → m [c] ≤ w := by
      intro c hc
      apply hfits
      exact List.mem_of_mem_drop ((List.dropWhile_sublist _).subset hc)
    have ih2 := ih hsub
    rw [word_wrap_text_step m w s hs hf, join_lines_cons]
    have hsplit : s = s.take (fit m w s) ++ s.drop (fit m w s) :=
      (List.take_append_drop _ _).symm
    by_cases hend : ∃ a, s.take (fit m w s) = a ++ [' ']
    · obtain ⟨a, ha⟩ := hend
      have hrest : ∀ sep : List Char, sep = [] ∨ sep = [' '] →
          words_aux [] (sep ++ join_lines (word_wrap_text m w (skip_spaces (s.drop (fit m w s)))))
            = words_aux [] (s.drop (fit m w s)) := by
        intro sep hsep
        rcases hsep with h | h
        · rw [h, List.nil_append, ih2, words_aux_skip_spaces]
        · rw [h]
          simp only [List.singleton_append]
          rw [words_aux_space, ih2, words_aux_skip_spaces]
          simp [words_aux]
      have e1 : ∀ x : List Char, (a ++ [' ']) ++ x = a ++ ' ' :: x := by intro x; simp
      have e2 : words_aux cur s = words_aux cur (a ++ ' ' :: s.drop (fit m w s)) := by
        conv_lhs => rw [hsplit]
        rw [ha, e1]
      rw [e2, ha, e1, words_aux_append_space a (s.drop (fit m w s)) cur,
        words_aux_append_space a _ cur]
      congr 1
      apply hrest
      split_ifs <;> simp
    · have hskip : skip_spaces (s.drop (fit m w s)) = s.drop (fit m w s) := by
        rcases fit_break m w s with h | h
        · exact absurd h hend
        · exact h
      have hlast : ¬ (s.take (fit m w s)).getLast? = some ' ' := by
        intro h
        apply hend
        obtain ⟨a, ha⟩ := List.getLast?_eq_some_iff.mp h
        exact ⟨a, ha⟩
      simp only [hlast, if_false, ite_self, List.nil_append]
      conv_rhs => rw [hsplit]
      apply words_aux_congr
      intro cur2
      rw [ih2 cur2, hskip]

/-- The tokens of a text, concatenated, are its non-space characters. -/
theorem words_aux_flatten (s : List Char) :
    ∀ cur, (words_aux cur s).flatten = cur.reverse ++ s.filter (· ≠ ' ') := by
  induction s with
  | nil => intro cur; by_cases h : cur = [] <;> simp [words_aux, h]
  | cons c t ih =>
    intro cur
    by_cases hc : c = ' '
    · by_cases h : cur = [] <;> simp [words_aux, hc, h, ih]
    · simp [words_aux, hc, ih]

theorem words_flatten (s : List Char) : (words s).flatten = s.filter (· ≠ ' ') := by
  simpa [words] using words_aux_flatten s []

/-! ## Width of the returned lines -/

theorem scan_fits (m : Metrics) (w : Int) (s : List Char) :
    ∀ (rest pre : List Char) (ls : Int), s = pre ++ rest →
      (∀ k, 0 < k → k ≤ pre.length → m (s.take k) ≤ w) → ls < (pre.length : Int) →
      scan m w s rest pre.length ls pre.length = 0 ∨
      m (s.take (scan m w s rest pre.length ls pre.length)) ≤ w ∨
      (∃ a, s.take (scan m w s rest pre.length ls pre.length) = a ++ [' '] ∧
        w < m (a ++ [' ']) ∧ (a = [] ∨ m a ≤ w)) := by
  intro rest
  induction rest with
  | nil =>
    intro pre ls _ hinv _
    simp only [scan]
    by_cases h0 : pre.length = 0
    · left; exact h0
    · right; left; exact hinv _ (by omega) le_rfl
  | cons c t ih =>
    intro pre ls hs hinv hls
    have htake : s.take (pre.length + 1) = pre ++ [c] := by
      rw [hs, List.take_append_eq_append_take]
      simp
    have hpre : s.take pre.length = pre := by
      rw [hs]; simp
    simp only [scan, htake]
    by_cases ho : m (pre ++ [c]) > w
    · simp only [ho, if_true]
      by_cases hc : c = ' '
      · have hl : (if c = ' ' then (pre.length : Int) else ls) ≥ 0 := by simp [hc]
        simp only [hl, if_true]
        right; right
        refine ⟨pre, ?_, ?_, ?_⟩
        · simp only [hc, if_true]
          have : ((pre.length : Int) + 1).toNat = pre.length + 1 := by omega
          rw [this, htake, hc]
        · rw [← hc]; exact ho
        · by_cases hp : pre = []
          · left; exact hp
          · right
            have := hinv pre.length (List.length_pos.mpr hp) le_rfl
            rwa [hpre] at this
      · simp only [hc, if_false]
        by_cases hl : ls ≥ 0
        · simp only [hl, if_true]
          right; left
          exact hinv _ (by omega) (by omega)
        · simp only [hl, if_false]
          by_cases h0 : pre.length = 0
          · left; exact h0
          · right; left; exact hinv _ (by omega) le_rfl
    · simp only [ho, if_false]
      have hinv2 : ∀ k, 0 < k → k ≤ (pre ++ [c]).length → m (s.take k) ≤ w := by
        intro k hk hle
        simp only [List.length_append, List.length_singleton] at hle
        by_cases hk2 : k ≤ pre.length
        · exact hinv k hk hk2
        · have : k = pre.length + 1 := by omega
          rw [this, htake]
          exact not_lt.mp ho
      have := ih (pre ++ [c]) (if c = ' ' then (pre.length : Int) else ls) (by simp [hs])
        hinv2
        (by simp only [List.length_append, List.length_singleton]; split_ifs <;> push_cast <;> omega)
      simpa [List.length_append] using this

/-- Every returned line was measured as fitting, except a line that ends with
the space at which the overflow was detected; such a line without that space
is empty or fits. -/
theorem line_fits_or_ends_with_space (m : Metrics) (w : Int) :
    ∀ s, ∀ l ∈ word_wrap_text m w s,
      m l ≤ w ∨ ∃ a, l = a ++ [' '] ∧ w < m l ∧ (a = [] ∨ m a ≤ w) := by
  intro s l hl
  obtain ⟨r, _, hf, hlr⟩ := mem_word_wrap_text m w s l hl
  have h := scan_fits m w r r [] (-1) (by simp) (by intro k h1 h2; simp at h2; omega) (by simp)
  simp only [List.length_nil] at h
  rcases h with h | h | ⟨a, h1, h2, h3⟩
  · exact absurd h hf
  · left; rw [hlr]; exact h
  · right
    refine ⟨a, ?_, ?_, h3⟩
    · rw [hlr]; exact h1
    · rw [hlr]
      have : r.take (fit m w r) = a ++ [' '] := h1
      rw [this]; exact h2

/-! ## Claims about word_wrap_text -/

/-- C1 (violated by the code): with one pixel per character and
`max_width = 3`, the text `aaa b` is wrapped into `aaa ` and `b`; the first
line measures 4 pixels, more than `max_width`, and it contains a space, so it
is not a single unbreakable token. -/
theorem word_wrap_text_overflow_at_space :
    word_wrap_text unit_metrics 3 "aaa b".toList = ["aaa ".toList, "b".toList] ∧
    unit_metrics "aaa ".toList = 4 ∧ ' ' ∈ "aaa ".toList := by
  decide

/-- C2 (as stated, refuted): with one pixel per character and `max_width = 0`
the text `ab` yields no line at all, so its two non-space characters are
dropped and the joined lines do not reconstruct it. -/
theorem word_wrap_text_drops_text :
    word_wrap_text unit_metrics 0 "ab".toList = [] ∧
    words (join_lines (word_wrap_text unit_metrics 0 "ab".toList)) ≠ words "ab".toList ∧
    (join_lines (word_wrap_text unit_metrics 0 "ab".toList)).filter (· ≠ ' ')
      ≠ "ab".toList.filter (· ≠ ' ') := by
  decide

/-- C2 (amended): when every non-space character of the text, measured alone,
fits into `max_width`, joining the returned lines (a single space after a line
broken at a space, nothing after a line broken at a character boundary) gives
a text with the same space-free tokens as the original, and hence with the
same non-space characters in the same order. -/
theorem word_wrap_text_reconstructs (m : Metrics) (max_width : Int) (text : List Char)
    (hfits : ∀ c ∈ text, c ≠ ' ' → m [c] ≤ max_width) :
    words (join_lines (word_wrap_text m max_width text)) = words text ∧
    (join_lines (word_wrap_text m max_width text)).filter (· ≠ ' ')
      = text.filter (· ≠ ' ') := by
  have h : words (join_lines (word_wrap_text m max_width text)) = words text :=
    words_aux_join m max_width text hfits []
  refine ⟨h, ?_⟩
  rw [← words_flatten, ← words_flatten, h]

theorem word_wrap_text_reconstructs_witness :
    (∀ c ∈ "aaa  bb c".toList, c ≠ ' ' → unit_metrics [c] ≤ 3) ∧
    words (join_lines (word_wrap_text unit_metrics 3 "aaa  bb c".toList))
      = words "aaa  bb c".toList ∧
    (join_lines (word_wrap_text unit_metrics 3 "aaa  bb c".toList)).filter (· ≠ ' ')
      = "aaa  bb c".toList.filter (· ≠ ' ') :=
  ⟨by decide, word_wrap_text_reconstructs unit_metrics 3 "aaa  bb c".toList (by decide)⟩

/-- C3: for every text, metrics function and `max_width`, re-wrapping any line
`L` returned by `word_wrap_text` with the same metrics and `max_width` returns
exactly `[L]`. -/
theorem word_wrap_text_idempotent (m : Metrics) (max_width : Int) (text L : List Char)
    (hL : L ∈ word_wrap_text m max_width text) :
    word_wrap_text m max_width L = [L] := by
  obtain ⟨r, _, hf, hl⟩ := mem_word_wrap_text m max_width text L hL
  rw [hl]
  exact wrap_fitting_part m max_width r hf

theorem word_wrap_text_idempotent_witness :
    "aaa ".toList ∈ word_wrap_text unit_metrics 3 "aaa b".toList ∧
    word_wrap_text unit_metrics 3 "aaa ".toList = ["aaa ".toList] :=
  ⟨by decide,
    word_wrap_text_idempotent unit_metrics 3 "aaa b".toList "aaa ".toList (by decide)⟩

/-- C4: for every text, metrics function and `max_width` the loop of
`word_wrap_text` ends: any fuel above the length of the text yields the same
defined result.  A pass that emits a line leaves a strictly shorter remainder,
a pass that finds `len = 0` ends the loop, the result has at most
`length text` lines, none of them empty, and the empty text gives no line. -/
theorem word_wrap_text_terminates (m : Metrics) (max_width : Int) (text : List Char) :
    (∀ fuel, text.length < fuel →
      word_wrap_loop m max_width fuel text = some (word_wrap_text m max_width text)) ∧
    (∀ s, s ≠ [] → fit m max_width s ≠ 0 →
      (skip_spaces (s.drop (fit m max_width s))).length < s.length) ∧
    (∀ s, fit m max_width s = 0 → word_wrap_text m max_width s = []) ∧
    (word_wrap_text m max_width text).length ≤ text.length ∧
    (∀ l ∈ word_wrap_text m max_width text, l ≠ []) ∧
    word_wrap_text m max_width [] = [] :=
  ⟨fun fuel h => word_wrap_loop_fuel m max_width fuel text h,
    rest_length_lt m max_width,
    word_wrap_text_stop m max_width,
    (word_wrap_text_bounds m max_width text).1,
    (word_wrap_text_bounds m max_width text).2,
    word_wrap_text_nil m max_width⟩

theorem word_wrap_text_terminates_witness :
    word_wrap_loop unit_metrics 0 3 "ab".toList = some [] ∧
    word_wrap_loop unit_metrics 3 6 "aaa b".toList = some ["aaa ".toList, "b".toList] ∧
    (skip_spaces ("aaa b".toList.drop (fit unit_metrics 3 "aaa b".toList))).length
      < "aaa b".toList.length :=
  ⟨((word_wrap_text_terminates unit_metrics 0 "ab".toList).1 3 (by decide)).trans
      (by decide),
    ((word_wrap_text_terminates unit_metrics 3 "aaa b".toList).1 6 (by decide)).trans
      (by decide),
    (word_wrap_text_terminates unit_metrics 3 "aaa b".toList).2.1 "aaa b".toList
      (by decide) (by decide)⟩

/-! ## Binary32 rounding -/

theorem round_half_even_err (y : ℚ) : |(round_half_even y : ℚ) - y| ≤ 1 / 2 := by
  have h1 := Int.floor_le y
  have h2 := Int.lt_floor_add_one y
  unfold round_half_even
  dsimp only
  split_ifs with ha hb hc
  · rw [abs_le]; constructor <;> linarith
  · rw [abs_le]; push_cast; constructor <;> linarith
  · rw [abs_le]; constructor <;> linarith
  · rw [abs_le]; push_cast; constructor <;> linarith

theorem round_half_even_near (y : ℚ) (n : Int) (h : |y - (n : ℚ)| < 1 / 2) :
    round_half_even y = n := by
  rw [abs_lt] at h
  unfold round_half_even
  dsimp only
  by_cases hge : (n : ℚ) ≤ y
  · have hf : ⌊y⌋ = n := by
      rw [Int.floor_eq_iff]; constructor <;> linarith
    rw [hf, if_pos (by linarith)]
  · have hf : ⌊y⌋ = n - 1 := by
      rw [Int.floor_eq_iff]; push_cast; constructor <;> linarith
    rw [hf]
    push_cast
    rw [if_neg (by linarith), if_pos (by linarith)]
    ring

theorem round_half_even_nonneg (y : ℚ) (h : 0 ≤ y) : 0 ≤ round_half_even y := by
  have hf : 0 ≤ ⌊y⌋ := Int.floor_nonneg.mpr h
  unfold round_half_even
  dsimp only
  split_ifs <;> omega

theorem log_two_eq (x : ℚ) (e : Int) (hlo : (2 : ℚ) ^ e ≤ x) (hhi : x < (2 : ℚ) ^ (e + 1)) :
    Int.log 2 x = e := by
  have hpos : 0 < x := lt_of_lt_of_le (by positivity) hlo
  have h1 : e ≤ Int.log 2 x :=
    (Int.zpow_le_iff_le_log (by norm_num) hpos).mp (by exact_mod_cast hlo)
  have h2 : Int.log 2 x < e + 1 :=
    (Int.lt_zpow_iff_log_lt (by norm_num) hpos).mp (by exact_mod_cast hhi)
  omega

theorem f32_eval (x : ℚ) (e n : Int) (hlo : (2 : ℚ) ^ e ≤ |x|) (hhi : |x| < (2 : ℚ) ^ (e + 1))
    (hnear : |x - (n : ℚ) * (2 : ℚ) ^ (e - 23)| < (2 : ℚ) ^ (e - 24)) :
    f32 x = (n : ℚ) * (2 : ℚ) ^ (e - 23) := by
  have hx : x ≠ 0 := by
    intro h
    rw [h, abs_zero] at hlo
    exact absurd hlo (not_le.mpr (by positivity))
  have hu : (0 : ℚ) < (2 : ℚ) ^ (e - 23) := by positivity
  have hhalf : (2 : ℚ) ^ (e - 24) = (2 : ℚ) ^ (e - 23) / 2 := by
    rw [show e - 23 = (e - 24) + 1 by ring, zpow_add_one₀ (by norm_num)]
    ring
  unfold f32
  rw [if_neg hx]
  dsimp only
  rw [log_two_eq |x| e hlo hhi]
  congr 1
  norm_cast
  apply round_half_even_near
  have : x / (2 : ℚ) ^ (e - 23) - (n : ℚ) = (x - (n : ℚ) * (2 : ℚ) ^ (e - 23)) / (2 : ℚ) ^ (e - 23) := by
    field_simp
    ring
  rw [this, abs_div, abs_of_pos hu, div_lt_iff₀ hu]
  rw [hhalf] at hnear
  linarith


theorem f32_zero : f32 0 = 0 := by simp [f32]

/-- Absolute rounding error: half a unit in the last place. -/
theorem f32_err (x : ℚ) (hx : x ≠ 0) :
    |f32 x - x| ≤ (2 : ℚ) ^ (Int.log 2 |x| - 23) / 2 := by
  have hu : (0 : ℚ) < (2 : ℚ) ^ (Int.log 2 |x| - 23) := by positivity
  unfold f32
  rw [if_neg hx]
  dsimp only
  have h := round_half_even_err (x / (2 : ℚ) ^ (Int.log 2 |x| - 23))
  have e1 : (round_half_even (x / (2 : ℚ) ^ (Int.log 2 |x| - 23)) : ℚ)
        * (2 : ℚ) ^ (Int.log 2 |x| - 23) - x
      = ((round_half_even (x / (2 : ℚ) ^ (Int.log 2 |x| - 23)) : ℚ)
        - x / (2 : ℚ) ^ (Int.log 2 |x| - 23)) * (2 : ℚ) ^ (Int.log 2 |x| - 23) := by
    field_simp
  rw [e1, abs_mul, abs_of_pos hu]
  calc _ ≤ 1 / 2 * (2 : ℚ) ^ (Int.log 2 |x| - 23) :=
        mul_le_mul_of_nonneg_right h hu.le
    _ = _ := by ring

/-- Relative rounding error. -/
theorem f32_rel_err (x : ℚ) : |f32 x - x| ≤ |x| / 16777216 := by
  by_cases hx : x = 0
  · rw [hx, f32_zero]; simp
  · have hpos : 0 < |x| := abs_pos.mpr hx
    have h := f32_err x hx
    have hlog : (2 : ℚ) ^ Int.log 2 |x| ≤ |x| := by
      have := Int.zpow_log_le_self (b := 2) (by norm_num) hpos
      exact_mod_cast this
    have e : (2 : ℚ) ^ (Int.log 2 |x| - 23) = (2 : ℚ) ^ Int.log 2 |x| / 8388608 := by
      rw [zpow_sub₀ (by norm_num)]
      norm_num
    rw [e] at h
    linarith

/-- Absolute rounding error below 4. -/
theorem f32_err_lt_four (x : ℚ) (hx : |x| < 4) : |f32 x - x| ≤ 1 / 8388608 := by
  by_cases h0 : x = 0
  · rw [h0, f32_zero]; simp
  · have hpos : 0 < |x| := abs_pos.mpr h0
    have h := f32_err x h0
    have hlog : Int.log 2 |x| < 2 :=
      (Int.lt_zpow_iff_log_lt (by norm_num) hpos).mp (by norm_num; exact hx)
    have hle : (2 : ℚ) ^ (Int.log 2 |x| - 23) ≤ (2 : ℚ) ^ ((-22 : Int)) :=
      zpow_le_zpow_right₀ (by norm_num) (by omega)
    have : (2 : ℚ) ^ ((-22 : Int)) = 1 / 4194304 := by norm_num
    rw [this] at hle
    linarith

theorem f32_nonneg (x : ℚ) (hx : 0 ≤ x) : 0 ≤ f32 x := by
  unfold f32
  split_ifs
  · exact le_rfl
  · dsimp only
    have hu : (0 : ℚ) < (2 : ℚ) ^ (Int.log 2 |x| - 23) := by positivity
    have := round_half_even_nonneg (x / (2 : ℚ) ^ (Int.log 2 |x| - 23)) (div_nonneg hx hu.le)
    have h2 : (0 : ℚ) ≤ (round_half_even (x / (2 : ℚ) ^ (Int.log 2 |x| - 23)) : ℚ) := by
      exact_mod_cast this
    exact mul_nonneg h2 hu.le

theorem f32_exact (x : ℚ) (e n : Int) (hlo : (2 : ℚ) ^ e ≤ |x|) (hhi : |x| < (2 : ℚ) ^ (e + 1))
    (hx : x = (n : ℚ) * (2 : ℚ) ^ (e - 23)) : f32 x = x := by
  have h := f32_eval x e n hlo hhi (by rw [← hx, sub_self, abs_zero]; positivity)
  rw [h, ← hx]

/-- Every natural number below `2^24` is a binary32 value. -/
theorem f32_nat (k : Nat) (hk : k < 16777216) : f32 (k : ℚ) = (k : ℚ) := by
  by_cases h0 : k = 0
  · rw [h0]; simp [f32_zero]
  · have hpos : 0 < k := Nat.pos_of_ne_zero h0
    have hlo : 2 ^ Nat.log 2 k ≤ k := Nat.pow_log_le_self 2 h0
    have hhi : k < 2 ^ (Nat.log 2 k + 1) := Nat.lt_pow_succ_log_self (by norm_num) k
    have he : Nat.log 2 k < 24 := by
      by_contra hcon
      have : 2 ^ 24 ≤ 2 ^ Nat.log 2 k := Nat.pow_le_pow_right (by norm_num) (by omega)
      omega
    have habs : |(k : ℚ)| = (k : ℚ) := abs_of_nonneg (Nat.cast_nonneg k)
    apply f32_exact (k : ℚ) (Nat.log 2 k : Int) ((k * 2 ^ (23 - Nat.log 2 k) : Nat) : Int)
    · rw [habs, zpow_natCast]; exact_mod_cast hlo
    · rw [habs, show ((Nat.log 2 k : Int) + 1) = ((Nat.log 2 k + 1 : Nat) : Int) by push_cast; ring,
        zpow_natCast]
      exact_mod_cast hhi
    · have h23 : ((Nat.log 2 k : Int) - 23) = -((23 - Nat.log 2 k : Nat) : Int) := by omega
      rw [h23, zpow_neg, zpow_natCast]
      push_cast
      field_simp

theorem f32_int_lit (k : Nat) (hk : k < 16777216) : f32 ((k : Int) : ℚ) = ((k : Int) : ℚ) := by
  have := f32_nat k hk
  exact_mod_cast this

theorem flt_0_05_eq : FLT_0_05 = 13421773 / 268435456 := by
  have h := f32_eval (1 / 20) (-5) 13421773
    (by rw [abs_of_pos (by norm_num)]; norm_num)
    (by rw [abs_of_pos (by norm_num)]; norm_num)
    (by rw [abs_lt]; constructor <;> norm_num)
  unfold FLT_0_05
  rw [h]
  norm_num

/-! ## Viewport arithmetic -/

theorem c_int_of_nonneg (x : ℚ) (h : 0 ≤ x) : c_int x = ⌊x⌋ := by
  simp [c_int, h]

theorem c_int_intCast (n : Int) : c_int (n : ℚ) = n := by
  unfold c_int
  split_ifs <;> simp

theorem zoom_step_bounds (z : ℚ) (y : Int) (h1 : 1 / 2 ≤ z) (h2 : z ≤ 3) :
    1 / 2 ≤ zoom_step z y ∧ zoom_step z y ≤ 3 := by
  have ha := f32_err_lt_four (z + 13421773 / 268435456) (by rw [abs_lt]; constructor <;> linarith)
  have hb := f32_err_lt_four (z - 13421773 / 268435456) (by rw [abs_lt]; constructor <;> linarith)
  rw [abs_le] at ha hb
  unfold zoom_step
  rw [flt_0_05_eq]
  dsimp only
  split_ifs <;> constructor <;> linarith

theorem handle_event_zoom_bounds (lc : Int) (s : ViewState) (e : SDL_Event)
    (h1 : 1 / 2 ≤ s.zoom) (h2 : s.zoom ≤ 3) :
    1 / 2 ≤ (handle_event lc s e).1.zoom ∧ (handle_event lc s e).1.zoom ≤ 3 := by
  cases e with
  | QUIT => exact ⟨h1, h2⟩
  | MOUSEWHEEL ctrl y =>
    cases ctrl
    · exact ⟨h1, h2⟩
    · exact zoom_step_bounds s.zoom y h1 h2
  | WINDOWEVENT r w h =>
    cases r
    · exact ⟨h1, h2⟩
    · exact ⟨h1, h2⟩
  | OTHER => exact ⟨h1, h2⟩

theorem run_events_zoom_bounds (lc : Int) (evs : List SDL_Event) :
    ∀ s : ViewState, 1 / 2 ≤ s.zoom → s.zoom ≤ 3 →
      1 / 2 ≤ (run_events lc s evs).zoom ∧ (run_events lc s evs).zoom ≤ 3 := by
  induction evs with
  | nil => intro s h1 h2; exact ⟨h1, h2⟩
  | cons e es ih =>
    intro s h1 h2
    have hstep := handle_event_zoom_bounds lc s e h1 h2
    cases e with
    | QUIT => exact ⟨h1, h2⟩
    | MOUSEWHEEL ctrl y => exact ih _ hstep.1 hstep.2
    | WINDOWEVENT r w h => exact ih _ hstep.1 hstep.2
    | OTHER => exact ih _ hstep.1 hstep.2

theorem zoom_step_in (z : ℚ) (y : Int) (hy : 0 < y) :
    zoom_step z y = min 3 (f32 (z + FLT_0_05)) := by
  unfold zoom_step
  dsimp only
  rw [if_pos hy, min_def]
  split_ifs <;> linarith

theorem zoom_step_out (z : ℚ) (y : Int) (hy : y < 0) :
    zoom_step z y = max (1 / 2) (f32 (z - FLT_0_05)) := by
  unfold zoom_step
  dsimp only
  rw [if_neg (by omega), if_pos hy, max_def]
  split_ifs <;> linarith

/-- A zoom-in step from a zoom in [0.5, 3.0] either ends at 3.0 or gains at
least 0.049. -/
theorem zoom_step_in_progress (z : ℚ) (y : Int) (hy : 0 < y) (h1 : 1 / 2 ≤ z) (h2 : z ≤ 3) :
    zoom_step z y = 3 ∨ z + 49 / 1000 ≤ zoom_step z y := by
  have ha := f32_err_lt_four (z + 13421773 / 268435456) (by rw [abs_lt]; constructor <;> linarith)
  rw [abs_le] at ha
  unfold zoom_step
  rw [flt_0_05_eq]
  dsimp only
  rw [if_pos hy]
  split_ifs
  · left; rfl
  · right; linarith

theorem run_zoom_in (lc : Int) (ys : List Int) :
    ∀ s : ViewState, (∀ y ∈ ys, 0 < y) → 1 / 2 ≤ s.zoom → s.zoom ≤ 3 →
      (run_events lc s (ys.map (SDL_Event.MOUSEWHEEL true))).zoom = 3 ∨
      s.zoom + (ys.length : ℚ) * (49 / 1000)
        ≤ (run_events lc s (ys.map (SDL_Event.MOUSEWHEEL true))).zoom := by
  induction ys with
  | nil =>
    intro s _ _ _
    right
    simp [run_events]
  | cons y ys ih =>
    intro s hys h1 h2
    have hy : 0 < y := hys y (by simp)
    have hk : (0 : ℚ) ≤ (ys.length : ℚ) := Nat.cast_nonneg _
    have hb := zoom_step_bounds s.zoom y h1 h2
    have hp := zoom_step_in_progress s.zoom y hy h1 h2
    have hrec := ih { s with zoom := zoom_step s.zoom y } (fun z hz => hys z (by simp [hz]))
      hb.1 hb.2
    have hfin := run_events_zoom_bounds lc (ys.map (SDL_Event.MOUSEWHEEL true))
      { s with zoom := zoom_step s.zoom y } hb.1 hb.2
    simp only [List.map_cons, run_events, handle_event, List.length_cons, Nat.cast_add,
      Nat.cast_one]
    rcases hrec with h | h
    · left; exact h
    · dsimp only at h
      rcases hp with hp | hp
      · left
        have hnn : (0 : ℚ) ≤ (ys.length : ℚ) * (49 / 1000) := by positivity
        exact le_antisymm hfin.2 (by linarith)
      · right
        linarith

theorem line_height_cast : (LINE_HEIGHT : ℚ) = 20 := by
  norm_num [LINE_HEIGHT, FONT_SIZE]

theorem f32_line_height_one : f32 ((LINE_HEIGHT : ℚ) * 1) = ((20 : Nat) : ℚ) := by
  rw [line_height_cast, mul_one]
  exact_mod_cast f32_nat 20 (by norm_num)

theorem f32_line_height_half : f32 ((LINE_HEIGHT : ℚ) * (1 / 2)) = ((10 : Nat) : ℚ) := by
  rw [line_height_cast, show (20 : ℚ) * (1 / 2) = ((10 : Nat) : ℚ) by norm_num]
  exact f32_nat 10 (by norm_num)

/-- The float quotient is exact when the divisor is a small integer dividing
the dividend. -/
theorem line_quotient_exact (n k d : Nat) (z : ℚ)
    (hd : f32 ((LINE_HEIGHT : ℚ) * z) = (d : ℚ)) (hd0 : 0 < d)
    (hn : n < 16777216) (hk : k < 16777216) (h : n = k * d) :
    line_quotient ((n : Nat) : Int) z = (k : ℚ) := by
  have hdq : (d : ℚ) ≠ 0 := by exact_mod_cast hd0.ne'
  unfold line_quotient
  rw [hd, f32_int_lit n hn]
  have : (((n : Nat) : Int) : ℚ) / (d : ℚ) = (k : ℚ) := by
    rw [h]
    push_cast
    field_simp
  rw [this]
  exact f32_nat k hk

theorem c_int_natCast (k : Nat) : c_int (k : ℚ) = (k : Int) := by
  have := c_int_intCast (k : Int)
  exact_mod_cast this

/-- The float quotient `n / (LINE_HEIGHT * zoom)` is non-negative and within a
relative error of `2^-22` of the exact quotient. -/
theorem line_quotient_err (n : Int) (zoom : ℚ) (hn : 0 ≤ n) (hz : 0 < zoom) :
    0 ≤ line_quotient n zoom ∧
    |line_quotient n zoom - (n : ℚ) / ((LINE_HEIGHT : ℚ) * zoom)|
      ≤ (n : ℚ) / ((LINE_HEIGHT : ℚ) * zoom) / 4194304 := by
  have hB : (0 : ℚ) < (LINE_HEIGHT : ℚ) * zoom := by
    rw [line_height_cast]; linarith
  have hnq : (0 : ℚ) ≤ (n : ℚ) := by exact_mod_cast hn
  have ha := f32_rel_err (n : ℚ)
  have hb := f32_rel_err ((LINE_HEIGHT : ℚ) * zoom)
  rw [abs_of_nonneg hnq, abs_le] at ha
  rw [abs_of_pos hB, abs_le] at hb
  have ha0 : 0 ≤ f32 (n : ℚ) := f32_nonneg _ hnq
  have hb0 : 0 < f32 ((LINE_HEIGHT : ℚ) * zoom) := by linarith
  have hq0 : 0 ≤ f32 (n : ℚ) / f32 ((LINE_HEIGHT : ℚ) * zoom) := div_nonneg ha0 hb0.le
  have hc := f32_rel_err (f32 (n : ℚ) / f32 ((LINE_HEIGHT : ℚ) * zoom))
  rw [abs_of_nonneg hq0, abs_le] at hc
  have hup : f32 (n : ℚ) / f32 ((LINE_HEIGHT : ℚ) * zoom)
      ≤ (16777217 / 16777216 * (n : ℚ)) / (16777215 / 16777216 * ((LINE_HEIGHT : ℚ) * zoom)) :=
    div_le_div₀ (by positivity) (by linarith) (by positivity) (by linarith)
  have hlow : (16777215 / 16777216 * (n : ℚ)) / (16777217 / 16777216 * ((LINE_HEIGHT : ℚ) * zoom))
      ≤ f32 (n : ℚ) / f32 ((LINE_HEIGHT : ℚ) * zoom) :=
    div_le_div₀ ha0 (by linarith) (by positivity) (by linarith)
  have e1 : (16777217 / 16777216 * (n : ℚ)) / (16777215 / 16777216 * ((LINE_HEIGHT : ℚ) * zoom))
      = 16777217 / 16777215 * ((n : ℚ) / ((LINE_HEIGHT : ℚ) * zoom)) := by
    field_simp
  have e2 : (16777215 / 16777216 * (n : ℚ)) / (16777217 / 16777216 * ((LINE_HEIGHT : ℚ) * zoom))
      = 16777215 / 16777217 * ((n : ℚ) / ((LINE_HEIGHT : ℚ) * zoom)) := by
    field_simp
  rw [e1] at hup
  rw [e2] at hlow
  have hq : 0 ≤ (n : ℚ) / ((LINE_HEIGHT : ℚ) * zoom) := div_nonneg hnq hB.le
  refine ⟨f32_nonneg _ hq0, ?_⟩
  unfold line_quotient
  rw [abs_le]
  constructor <;> nlinarith

theorem run_events_wheel (lc : Int) (s : ViewState) (ctrl : Bool) (y : Int)
    (es : List SDL_Event) :
    run_events lc s (.MOUSEWHEEL ctrl y :: es)
      = run_events lc (handle_event lc s (.MOUSEWHEEL ctrl y)).1 es := by
  rw [run_events]
  simp

theorem run_events_window (lc : Int) (s : ViewState) (r : Bool) (w h : Int)
    (es : List SDL_Event) :
    run_events lc s (.WINDOWEVENT r w h :: es)
      = run_events lc (handle_event lc s (.WINDOWEVENT r w h)).1 es := by
  rw [run_events]
  simp

theorem scroll_step_one : c_int (f32 (30 * (1 : ℚ))) = 30 := by
  rw [mul_one]
  have h : f32 ((30 : Nat) : ℚ) = ((30 : Nat) : ℚ) := f32_nat 30 (by norm_num)
  have h2 : f32 (30 : ℚ) = ((30 : Nat) : ℚ) := by exact_mod_cast h
  rw [h2, c_int_natCast]
  rfl

theorem zoom_step_out_one : zoom_step 1 (-1) = 15938355 / 16777216 := by
  have h := f32_eval (1 - 13421773 / 268435456) (-1) 15938355
    (by rw [abs_of_pos (by norm_num)]; norm_num)
    (by rw [abs_of_pos (by norm_num)]; norm_num)
    (by rw [abs_lt]; constructor <;> norm_num)
  unfold zoom_step
  dsimp only
  rw [if_neg (by decide), if_pos (by decide), flt_0_05_eq, h]
  norm_num

theorem visible_lines_one_210 : visible_lines 210 1 = 11 := by
  have h210 : f32 (((210 : Nat) : Int) : ℚ) = (((210 : Nat) : Int) : ℚ) :=
    f32_int_lit 210 (by norm_num)
  have hq : f32 ((21 : ℚ) / 2) = 21 / 2 := by
    have h := f32_exact (21 / 2) 3 11010048
      (by rw [abs_of_pos (by norm_num)]; norm_num)
      (by rw [abs_of_pos (by norm_num)]; norm_num)
      (by norm_num)
    exact h
  have hl : line_quotient 210 1 = 21 / 2 := by
    unfold line_quotient
    rw [f32_line_height_one]
    have e : ((210 : Int) : ℚ) = (((210 : Nat) : Int) : ℚ) := by norm_num
    rw [e, h210]
    have e2 : ((((210 : Nat) : Int) : ℚ)) / ((20 : Nat) : ℚ) = 21 / 2 := by norm_num
    rw [e2, hq]
  unfold visible_lines
  rw [hl]
  norm_num [c_int, Int.floor_eq_iff]

theorem start_line_eval (n k d : Nat) (z : ℚ)
    (hd : f32 ((LINE_HEIGHT : ℚ) * z) = (d : ℚ)) (hd0 : 0 < d)
    (hn : n < 16777216) (hk : k < 16777216) (h : n = k * d) :
    start_line ((n : Nat) : Int) z = (k : Int) := by
  unfold start_line
  rw [line_quotient_exact n k d z hd hd0 hn hk h, c_int_natCast]

theorem visible_lines_eval (n k d : Nat) (z : ℚ)
    (hd : f32 ((LINE_HEIGHT : ℚ) * z) = (d : ℚ)) (hd0 : 0 < d)
    (hn : n < 16777216) (hk : k < 16777216) (h : n = k * d) :
    visible_lines ((n : Nat) : Int) z = (k : Int) + 1 := by
  unfold visible_lines
  rw [line_quotient_exact n k d z hd hd0 hn hk h, c_int_natCast]

/-! ## Claims about the viewport -/

/-- C5 (violated by the code): with 31 lines in a window 600 pixels high, one
wheel notch down followed by one Ctrl+wheel notch down leaves
`offset_y = 20`, while the bound computed from the current zoom (the float
`1.0f - 0.05f`, about 0.95) and the current window height,
`max(0, ceil(31 * LINE_HEIGHT * zoom) - 600)`, is 0.  The zoom branch neither
recomputes `max_offset` nor clamps `offset_y`. -/
theorem scroll_offset_exceeds_bound_after_zoom_out :
    (run_events 31 (initial_state 31 800 600)
      [.MOUSEWHEEL false (-1), .MOUSEWHEEL true (-1)]).offset_y = 20 ∧
    (run_events 31 (initial_state 31 800 600)
      [.MOUSEWHEEL false (-1), .MOUSEWHEEL true (-1)]).zoom = 15938355 / 16777216 ∧
    (run_events 31 (initial_state 31 800 600)
      [.MOUSEWHEEL false (-1), .MOUSEWHEEL true (-1)]).window_height = 600 ∧
    spec_max_offset 31 600 (15938355 / 16777216) = 0 := by
  refine ⟨?_, ?_, ?_, ?_⟩
  · simp only [run_events, handle_event, initial_state]
    rw [scroll_step_one]
    decide
  · simp only [run_events, handle_event, initial_state]
    exact zoom_step_out_one
  · simp only [run_events, handle_event, initial_state]
  · have hc : ⌈(((31 : Int) * LINE_HEIGHT : Int) : ℚ) * (15938355 / 16777216)⌉ = 589 := by
      rw [Int.ceil_eq_iff]
      norm_num [LINE_HEIGHT, FONT_SIZE]
    unfold spec_max_offset
    rw [hc]
    decide

/-- C6: in every state reached from the initial state (zoom 1.0) by any event
sequence the zoom lies in [0.5, 3.0]; a zoom-in step adds `0.05f` in float
arithmetic and clamps at 3.0, a zoom-out step subtracts `0.05f` and clamps at
0.5, the unclamped result being within `2^-22` of the zoom plus or minus 0.05;
after 41 or more consecutive zoom-in steps from the initial state the zoom is
exactly 3.0. -/
theorem zoom_within_bounds (line_count w h : Int) :
    (∀ evs : List SDL_Event,
      1 / 2 ≤ (run_events line_count (initial_state line_count w h) evs).zoom ∧
      (run_events line_count (initial_state line_count w h) evs).zoom ≤ 3) ∧
    (∀ (s : ViewState) (y : Int),
      (0 < y → (handle_event line_count s (.MOUSEWHEEL true y)).1.zoom
        = min 3 (f32 (s.zoom + FLT_0_05))) ∧
      (y < 0 → (handle_event line_count s (.MOUSEWHEEL true y)).1.zoom
        = max (1 / 2) (f32 (s.zoom - FLT_0_05)))) ∧
    (∀ z : ℚ, 1 / 2 ≤ z → z ≤ 3 →
      |f32 (z + FLT_0_05) - (z + 1 / 20)| ≤ 1 / 4194304 ∧
      |f32 (z - FLT_0_05) - (z - 1 / 20)| ≤ 1 / 4194304) ∧
    (∀ ys : List Int, (∀ y ∈ ys, 0 < y) → 41 ≤ ys.length →
      (run_events line_count (initial_state line_count w h)
        (ys.map (SDL_Event.MOUSEWHEEL true))).zoom = 3) := by
  refine ⟨fun evs => ?_, fun s y => ⟨fun hy => ?_, fun hy => ?_⟩, fun z hz1 hz2 => ?_,
    fun ys hys hlen => ?_⟩
  · exact run_events_zoom_bounds line_count evs _ (by norm_num [initial_state])
      (by norm_num [initial_state])
  · simp [handle_event, zoom_step_in _ _ hy]
  · simp [handle_event, zoom_step_out _ _ hy]
  · have ha := f32_err_lt_four (z + 13421773 / 268435456)
      (by rw [abs_lt]; constructor <;> linarith)
    have hb := f32_err_lt_four (z - 13421773 / 268435456)
      (by rw [abs_lt]; constructor <;> linarith)
    rw [abs_le] at ha hb
    rw [flt_0_05_eq, abs_le, abs_le]
    constructor <;> constructor <;> linarith
  · have hinit : (initial_state line_count w h).zoom = 1 := rfl
    have h41 : (41 : ℚ) ≤ (ys.length : ℚ) := by exact_mod_cast hlen
    have hfin := run_events_zoom_bounds line_count (ys.map (SDL_Event.MOUSEWHEEL true))
      (initial_state line_count w h) (by rw [hinit]; norm_num) (by rw [hinit]; norm_num)
    rcases run_zoom_in line_count ys (initial_state line_count w h) hys
        (by rw [hinit]; norm_num) (by rw [hinit]; norm_num) with h3 | hlow
    · exact h3
    · rw [hinit] at hlow
      linarith

theorem zoom_within_bounds_witness :
    (∀ y ∈ List.replicate 41 (1 : Int), 0 < y) ∧
    41 ≤ (List.replicate 41 (1 : Int)).length ∧
    (run_events 100 (initial_state 100 800 600)
      ((List.replicate 41 (1 : Int)).map (SDL_Event.MOUSEWHEEL true))).zoom = 3 :=
  ⟨by decide, by decide,
    (zoom_within_bounds 100 800 600).2.2.2 (List.replicate 41 1) (by decide) (by decide)⟩

/-- C7 (as stated, refuted): at zoom 1.0 and window height 210 the program
computes `visible_lines = 11`, not `ceil(210 / 20) + 1 = 12`, and for 100
lines at offset 0 it computes `end_line = 11`, not
`min(100, start_line + 12) = 12`. -/
theorem visible_lines_not_ceil :
    visible_lines 210 1 = 11 ∧
    visible_lines 210 1 ≠ ⌈((210 : Int) : ℚ) / ((LINE_HEIGHT : ℚ) * 1)⌉ + 1 ∧
    end_line 100 0 210 1 = 11 ∧
    end_line 100 0 210 1 ≠
      min 100 (start_line 0 1 + (⌈((210 : Int) : ℚ) / ((LINE_HEIGHT : ℚ) * 1)⌉ + 1)) := by
  have h1 : visible_lines 210 1 = 11 := visible_lines_one_210
  have hc : ⌈((210 : Int) : ℚ) / ((LINE_HEIGHT : ℚ) * 1)⌉ = 11 := by
    rw [Int.ceil_eq_iff]
    norm_num [LINE_HEIGHT, FONT_SIZE]
  have h3 : start_line 0 1 = 0 := by
    simpa using start_line_eval 0 0 20 1 f32_line_height_one (by norm_num) (by norm_num)
      (by norm_num) (by norm_num)
  have h4 : end_line 100 0 210 1 = 11 := by
    unfold end_line
    dsimp only
    rw [h1, h3]
    decide
  refine ⟨h1, ?_, h4, ?_⟩
  · rw [h1, hc]; decide
  · rw [h4, hc, h3]; decide

/-- C7 (amended): for every viewport state with `offset_y >= 0`, zoom in
[0.5, 3.0], `window_height > 0` and `line_count >= 1`, the frame computes
`start_line = floor(Qo)`, `visible_lines = floor(Qw) + 1` and
`end_line = min(line_count, start_line + visible_lines)`, where `Qo` and `Qw`
are the float quotients of `offset_y` and of `window_height` by the float
product `LINE_HEIGHT * zoom`; each of them lies within a relative error of
`2^-22` of the exact quotient by `line_height = LINE_HEIGHT * zoom`. -/
theorem visible_range_trunc (line_count offset_y window_height : Int) (zoom : ℚ)
    (ho : 0 ≤ offset_y) (hz1 : 1 / 2 ≤ zoom) (_hz2 : zoom ≤ 3)
    (hw : 0 < window_height) (_hl : 1 ≤ line_count) :
    start_line offset_y zoom = ⌊line_quotient offset_y zoom⌋ ∧
    |line_quotient offset_y zoom - (offset_y : ℚ) / ((LINE_HEIGHT : ℚ) * zoom)|
      ≤ (offset_y : ℚ) / ((LINE_HEIGHT : ℚ) * zoom) / 4194304 ∧
    visible_lines window_height zoom = ⌊line_quotient window_height zoom⌋ + 1 ∧
    |line_quotient window_height zoom - (window_height : ℚ) / ((LINE_HEIGHT : ℚ) * zoom)|
      ≤ (window_height : ℚ) / ((LINE_HEIGHT : ℚ) * zoom) / 4194304 ∧
    end_line line_count offset_y window_height zoom
      = min line_count (start_line offset_y zoom + visible_lines window_height zoom) := by
  have hz : (0 : ℚ) < zoom := by linarith
  have hqo := line_quotient_err offset_y zoom ho hz
  have hqw := line_quotient_err window_height zoom hw.le hz
  refine ⟨?_, hqo.2, ?_, hqw.2, ?_⟩
  · exact c_int_of_nonneg _ hqo.1
  · unfold visible_lines
    rw [c_int_of_nonneg _ hqw.1]
  · unfold end_line
    dsimp only
    rw [min_def]
    split_ifs <;> omega

theorem visible_range_trunc_witness :
    (0 : Int) ≤ 0 ∧ (1 / 2 : ℚ) ≤ 1 ∧ (1 : ℚ) ≤ 3 ∧ (0 : Int) < 210 ∧ (1 : Int) ≤ 100 ∧
    (start_line 0 1 = ⌊line_quotient 0 1⌋ ∧
      |line_quotient 0 1 - ((0 : Int) : ℚ) / ((LINE_HEIGHT : ℚ) * 1)|
        ≤ ((0 : Int) : ℚ) / ((LINE_HEIGHT : ℚ) * 1) / 4194304 ∧
      visible_lines 210 1 = ⌊line_quotient 210 1⌋ + 1 ∧
      |line_quotient 210 1 - ((210 : Int) : ℚ) / ((LINE_HEIGHT : ℚ) * 1)|
        ≤ ((210 : Int) : ℚ) / ((LINE_HEIGHT : ℚ) * 1) / 4194304 ∧
      end_line 100 0 210 1 = min 100 (start_line 0 1 + visible_lines 210 1)) :=
  ⟨by decide, by norm_num, by norm_num, by decide, by decide,
    visible_range_trunc 100 0 210 1 (by decide) (by norm_num) (by norm_num)
      (by decide) (by decide)⟩

/-- C8: for 100 lines, zoom 1.0 (line height 20), window height 200 and
`offset_y = 40` the frame computes `start_line = 2` and `end_line = 13`. -/
theorem visible_range_example :
    LINE_HEIGHT = 20 ∧ start_line 40 1 = 2 ∧ end_line 100 40 200 1 = 13 := by
  have h1 : visible_lines 200 1 = 11 := by
    simpa using visible_lines_eval 200 10 20 1 f32_line_height_one (by norm_num)
      (by norm_num) (by norm_num) (by norm_num)
  have h3 : start_line 40 1 = 2 := by
    simpa using start_line_eval 40 2 20 1 f32_line_height_one (by norm_num) (by norm_num)
      (by norm_num) (by norm_num)
  refine ⟨by decide, h3, ?_⟩
  unfold end_line
  dsimp only
  rw [h1, h3]
  decide

/-! ## Claims about the flattening -/

theorem walk_mk (anc : List Ancestor) (t : cmark_node_type) (lit : Option (List Char))
    (lvl : Int) (cs : List cmark_node) (lines : List TextLine) :
    walk anc (.mk t lit lvl cs) lines =
      if lines.length < LINES_CAP then
        walk_children (⟨t, lvl⟩ :: anc) cs (on_enter anc t lit lines)
      else lines := by
  rw [walk]

theorem walk_children_nil (anc : List Ancestor) (lines : List TextLine) :
    walk_children anc [] lines = lines := by
  rw [walk_children]

theorem walk_children_cons (anc : List Ancestor) (c : cmark_node) (cs : List cmark_node)
    (lines : List TextLine) :
    walk_children anc (c :: cs) lines = walk_children anc cs (walk anc c lines) := by
  rw [walk_children]

/-- Once the array is full the traversal stores nothing more. -/
theorem walk_full (anc : List Ancestor) (n : cmark_node) (X : List TextLine)
    (h : ¬ X.length < LINES_CAP) : walk anc n X = X := by
  cases n with
  | mk t lit lvl cs => rw [walk_mk, if_neg h]

theorem walk_heading_text (L : Int) (text : List Char) (up : List Ancestor)
    (lines : List TextLine) (ht : text ≠ []) (hc : lines.length < LINES_CAP) :
    walk (⟨.HEADING, L⟩ :: up) (text_node text) lines
      = lines ++ [{ plain_line text with
          font_size := FONT_SIZE + 4 * (7 - L), bold := 1 }] := by
  have hpos : 0 < text.length := List.length_pos.mpr ht
  simp [text_node, walk_mk, walk_children_nil, on_enter, text_line, hc, hpos]

/-- C9 (as stated, refuted): a text node contained in a level-2 heading
through an emphasis node is flattened to a plain record with `font_size = 16`
and `bold = 0`, because only the immediate parent is inspected; and a text
node whose parent is a level-2 heading stores nothing once the array holds
10000 lines. -/
theorem heading_nested_text_plain :
    flatten emph_title_doc = [plain_line "Title".toList] ∧
    (plain_line "Title".toList).font_size = 16 ∧
    (plain_line "Title".toList).bold = 0 ∧
    FONT_SIZE + 4 * (7 - 2) = 36 ∧
    walk [⟨.HEADING, 2⟩, ⟨.DOCUMENT, 0⟩] (text_node "Title".toList)
        (List.replicate 10000 (plain_line []))
      = List.replicate 10000 (plain_line []) := by
  refine ⟨by decide, by decide, by decide, by decide, ?_⟩
  apply walk_full
  rw [List.length_replicate]
  decide

/-- C9 (amended): for every heading level L in 1..6, the ENTER event of a text
node with non-empty literal whose parent is a heading of level L, reached
while fewer than 10000 lines are stored, appends a record with
`font_size = FONT_SIZE + 4 * (7 - L)` and `bold = 1`, whatever the ancestors
of the heading and the records stored so far; the document consisting of a
level-2 heading with the text `Title` directly below it is flattened to the
single record with `font_size = 36` and `bold = 1`. -/
theorem heading_text_line :
    (∀ (L : Int) (text : List Char) (up : List Ancestor) (lines : List TextLine),
      1 ≤ L → L ≤ 6 → text ≠ [] → lines.length < LINES_CAP →
      walk (⟨.HEADING, L⟩ :: up) (text_node text) lines
        = lines ++ [{ plain_line text with
            font_size := FONT_SIZE + 4 * (7 - L), bold := 1 }]) ∧
    (∀ (L : Int) (text : List Char), 1 ≤ L → L ≤ 6 → text ≠ [] →
      flatten (inner_node .DOCUMENT [heading_node L [text_node text]])
        = [{ plain_line text with font_size := FONT_SIZE + 4 * (7 - L), bold := 1 }]) ∧
    FONT_SIZE + 20 = 36 ∧
    flatten title_doc = [{ plain_line "Title".toList with font_size := 36, bold := 1 }] := by
  refine ⟨fun L text up lines _ _ ht hc => walk_heading_text L text up lines ht hc,
    fun L text _ _ ht => ?_, by decide, by decide⟩
  have h := walk_heading_text L text [⟨.DOCUMENT, 0⟩] [] ht (by decide)
  simp only [List.nil_append] at h
  have hcap : ([] : List TextLine).length < LINES_CAP := by decide
  simp only [flatten, inner_node, heading_node, walk_mk, walk_children_cons,
    walk_children_nil, hcap, if_true]
  have e1 : on_enter [] .DOCUMENT none ([] : List TextLine) = [] := by decide
  have e2 : on_enter [⟨.DOCUMENT, 0⟩] .HEADING none ([] : List TextLine) = [] := by decide
  rw [e1, if_pos hcap, e2, h]

theorem heading_text_line_witness :
    (1 : Int) ≤ 2 ∧ (2 : Int) ≤ 6 ∧ "Title".toList ≠ [] ∧
    flatten (inner_node .DOCUMENT [heading_node 2 [text_node "Title".toList]])
      = [{ plain_line "Title".toList with font_size := FONT_SIZE + 4 * (7 - 2), bold := 1 }] :=
  ⟨by decide, by decide, by decide,
    heading_text_line.2.1 2 "Title".toList (by decide) (by decide) (by decide)⟩

/-- C10 (violated by the code): the document `- - b`, whose tree is
document, list, item, list, item, paragraph, text, is flattened to a single
record with `is_list_item = 0` and `indent = 0`: the parent of the text node
is the paragraph, which none of the branches on the parent type matches.  The
record with `is_list_item = 1` and `indent = 4` is what the item branch stores
only when the text node is a direct child of the inner item. -/
theorem nested_list_item_not_styled :
    flatten nested_list_doc = [plain_line "b".toList] ∧
    (plain_line "b".toList).is_list_item = 0 ∧
    (plain_line "b".toList).indent = 0 ∧
    text_line [⟨.ITEM, 0⟩, ⟨.LIST, 0⟩, ⟨.ITEM, 0⟩, ⟨.LIST, 0⟩, ⟨.DOCUMENT, 0⟩] "b".toList
      = { plain_line "b".toList with is_list_item := 1, indent := 4 } := by
  decide

/-! ## Flattening: the bound and the unbounded traversal -/

theorem walk_uncapped_mk (anc : List Ancestor) (t : cmark_node_type)
    (lit : Option (List Char)) (lvl : Int) (cs : List cmark_node) (lines : List TextLine) :
    walk_uncapped anc (.mk t lit lvl cs) lines =
      walk_children_uncapped (⟨t, lvl⟩ :: anc) cs (on_enter_uncapped anc t lit lines) := by
  rw [walk_uncapped]

theorem walk_children_uncapped_nil (anc : List Ancestor) (lines : List TextLine) :
    walk_children_uncapped anc [] lines = lines := by
  rw [walk_children_uncapped]

theorem walk_children_uncapped_cons (anc : List Ancestor) (c : cmark_node)
    (cs : List cmark_node) (lines : List TextLine) :
    walk_children_uncapped anc (c :: cs) lines =
      walk_children_uncapped anc cs (walk_uncapped anc c lines) := by
  rw [walk_children_uncapped]

/-- One ENTER event appends at most one line. -/
theorem on_enter_uncapped_append (anc : List Ancestor) (t : cmark_node_type)
    (lit : Option (List Char)) (lines : List TextLine) :
    on_enter_uncapped anc t lit lines = lines ∨
    ∃ b, on_enter_uncapped anc t lit lines = lines ++ [b] := by
  unfold on_enter_uncapped
  split_ifs <;> first
    | (left; rfl)
    | (right; exact ⟨_, rfl⟩)
    | (split <;> first
        | (left; rfl)
        | (right; exact ⟨_, rfl⟩)
        | (split_ifs <;> first | (left; rfl) | (right; exact ⟨_, rfl⟩)))

theorem on_enter_eq_uncapped (anc : List Ancestor) (t : cmark_node_type)
    (lit : Option (List Char)) (lines : List TextLine) (h : lines.length < LINES_CAP) :
    on_enter anc t lit lines = on_enter_uncapped anc t lit lines := by
  unfold on_enter on_enter_uncapped
  simp [h]

mutual
theorem walk_uncapped_extends (anc : List Ancestor) :
    ∀ (n : cmark_node) (X : List TextLine), ∃ E, walk_uncapped anc n X = X ++ E
  | .mk t lit lvl cs, X => by
    rw [walk_uncapped_mk]
    obtain ⟨E, hE⟩ := walk_children_uncapped_extends (⟨t, lvl⟩ :: anc) cs
      (on_enter_uncapped anc t lit X)
    rcases on_enter_uncapped_append anc t lit X with h | ⟨b, h⟩
    · exact ⟨E, by rw [hE, h]⟩
    · exact ⟨[b] ++ E, by rw [hE, h, List.append_assoc]⟩
theorem walk_children_uncapped_extends (anc : List Ancestor) :
    ∀ (cs : List cmark_node) (X : List TextLine), ∃ E, walk_children_uncapped anc cs X = X ++ E
  | [], X => ⟨[], by rw [walk_children_uncapped_nil]; simp⟩
  | c :: cs, X => by
    rw [walk_children_uncapped_cons]
    obtain ⟨E1, h1⟩ := walk_uncapped_extends anc c X
    obtain ⟨E2, h2⟩ := walk_children_uncapped_extends anc cs (walk_uncapped anc c X)
    exact ⟨E1 ++ E2, by rw [h2, h1, List.append_assoc]⟩
end

mutual
theorem walk_take (anc : List Ancestor) :
    ∀ (n : cmark_node) (X : List TextLine),
      walk anc n (X.take LINES_CAP) = (walk_uncapped anc n X).take LINES_CAP
  | .mk t lit lvl cs, X => by
    rw [walk_mk, walk_uncapped_mk]
    by_cases hX : X.length < LINES_CAP
    · have hXt : X.take LINES_CAP = X := List.take_of_length_le (by omega)
      rw [hXt, if_pos hX, on_enter_eq_uncapped anc t lit X hX]
      have hY : (on_enter_uncapped anc t lit X).length ≤ LINES_CAP := by
        rcases on_enter_uncapped_append anc t lit X with h | ⟨b, h⟩
        · rw [h]; omega
        · rw [h]; simp; omega
      have := walk_children_take (⟨t, lvl⟩ :: anc) cs (on_enter_uncapped anc t lit X)
      rw [List.take_of_length_le hY] at this
      exact this
    · have hlen : (X.take LINES_CAP).length = LINES_CAP := by
        rw [List.length_take]; omega
      rw [if_neg (by omega)]
      obtain ⟨E, hE⟩ := walk_uncapped_extends anc (.mk t lit lvl cs) X
      rw [walk_uncapped_mk] at hE
      rw [hE, List.take_append_of_le_length (by omega)]
theorem walk_children_take (anc : List Ancestor) :
    ∀ (cs : List cmark_node) (X : List TextLine),
      walk_children anc cs (X.take LINES_CAP) = (walk_children_uncapped anc cs X).take LINES_CAP
  | [], X => by rw [walk_children_nil, walk_children_uncapped_nil]
  | c :: cs, X => by
    rw [walk_children_cons, walk_children_uncapped_cons, walk_take anc c X,
      walk_children_take anc cs (walk_uncapped anc c X)]
end

theorem flatten_eq_take (doc : cmark_node) :
    flatten doc = (flatten_uncapped doc).take LINES_CAP := by
  have := walk_take [] doc []
  simpa [flatten, flatten_uncapped] using this

theorem walk_length_le (anc : List Ancestor) (n : cmark_node) (X : List TextLine)
    (h : X.length ≤ LINES_CAP) : (walk anc n X).length ≤ LINES_CAP := by
  have := walk_take anc n X
  rw [List.take_of_length_le h] at this
  rw [this, List.length_take]
  exact Nat.min_le_left _ _

theorem take_min_length (l : List TextLine) (cap : Nat) :
    l.take (min l.length cap) = l.take cap := by
  by_cases h : l.length ≤ cap
  · rw [Nat.min_eq_left h, List.take_of_length_le h, List.take_of_length_le le_rfl]
  · rw [Nat.min_eq_right (by omega)]

/-- C12: for every tree the traversal stores at most 10000 lines, and they are
exactly the first `min(n, 10000)` of the `n` lines that the traversal without
the cap emits; the array never grows beyond 10000 lines at any point of the
traversal, so no line is stored at an index of 10000 or more, and the array
handed to the event loop has at most 10000 lines as well. -/
theorem flatten_truncates (doc : cmark_node) :
    LINES_CAP = 10000 ∧
    (flatten doc).length ≤ LINES_CAP ∧
    flatten doc = (flatten_uncapped doc).take (min (flatten_uncapped doc).length LINES_CAP) ∧
    (flatten doc).length = min (flatten_uncapped doc).length LINES_CAP ∧
    (∀ (anc : List Ancestor) (n : cmark_node) (X : List TextLine),
      X.length ≤ LINES_CAP → (walk anc n X).length ≤ LINES_CAP) ∧
    (∀ garbage : TextLine, (document garbage doc).length ≤ LINES_CAP) := by
  have hlen : (flatten doc).length = min (flatten_uncapped doc).length LINES_CAP := by
    rw [flatten_eq_take, List.length_take, Nat.min_comm]
  have hle : (flatten doc).length ≤ LINES_CAP := by
    rw [hlen]; exact Nat.min_le_right _ _
  refine ⟨rfl, hle, ?_, hlen, walk_length_le, fun garbage => ?_⟩
  · rw [take_min_length]; exact flatten_eq_take doc
  · unfold document
    dsimp only
    split_ifs
    · simp [LINES_CAP]
    · exact hle

theorem flatten_truncates_witness :
    ([] : List TextLine).length ≤ LINES_CAP ∧
    (walk [] title_doc []).length ≤ LINES_CAP :=
  ⟨by decide, (flatten_truncates title_doc).2.2.2.2.1 [] title_doc [] (by decide)⟩


theorem text_line_text (anc : List Ancestor) (text : List Char) :
    (text_line anc text).text = text := by
  unfold text_line
  cases anc with
  | nil => rfl
  | cons p up =>
    dsimp only
    split_ifs <;> try rfl
    cases up with
    | nil => rfl
    | cons l _ => dsimp only; split_ifs <;> rfl

/-- One ENTER event leaves the array as it is or appends one line. -/
theorem on_enter_append (anc : List Ancestor) (t : cmark_node_type)
    (lit : Option (List Char)) (lines : List TextLine) :
    on_enter anc t lit lines = lines ∨ ∃ b, on_enter anc t lit lines = lines ++ [b] := by
  unfold on_enter
  split_ifs <;> first
    | (left; rfl)
    | (right; exact ⟨_, rfl⟩)
    | (split <;> first
        | (left; rfl)
        | (right; exact ⟨_, rfl⟩)
        | (split_ifs <;> first | (left; rfl) | (right; exact ⟨_, rfl⟩)))

/-- The line stored by an ENTER event into the empty array is not a blank
spacer. -/
theorem on_enter_nil (anc : List Ancestor) (t : cmark_node_type)
    (lit : Option (List Char)) :
    on_enter anc t lit [] = [] ∨
    ∃ b, on_enter anc t lit [] = [b] ∧ ¬ is_plain_spacer b := by
  unfold on_enter
  by_cases h1 : t = .TEXT
  · rw [if_pos h1]
    cases lit with
    | none => left; rfl
    | some text =>
      dsimp only
      by_cases h : text.length > 0
      · rw [if_pos h]
        right
        refine ⟨_, rfl, ?_⟩
        intro hs
        have := hs.1
        rw [text_line_text] at this
        rw [this] at h
        simp at h
      · rw [if_neg h]; left; rfl
  · rw [if_neg h1]
    by_cases h2 : t = .PARAGRAPH ∨ t = .ITEM ∨ t = .LIST
    · rw [if_pos h2]; left; simp
    · rw [if_neg h2]
      by_cases h3 : t = .CODE_BLOCK
      · rw [if_pos h3]
        cases lit with
        | none => left; simp
        | some code =>
          right
          refine ⟨{ plain_line code with indent := 2, monospace := 1 }, by simp [LINES_CAP], ?_⟩
          intro hs
          exact absurd hs.2.2.1 (by simp)
      · rw [if_neg h3]
        by_cases h4 : t = .BLOCK_QUOTE
        · rw [if_pos h4]
          right
          refine ⟨{ plain_line [] with indent := 2, is_quote := 1 }, by simp [LINES_CAP], ?_⟩
          intro hs
          exact absurd hs.2.1 (by decide)
        · rw [if_neg h4]
          by_cases h5 : t = .THEMATIC_BREAK
          · rw [if_pos h5]
            right
            refine ⟨{ plain_line ['-', '-', '-'] with is_hr := 1 }, by simp [LINES_CAP], ?_⟩
            intro hs
            exact absurd hs.2.2.2 (by decide)
          · rw [if_neg h5]; left; trivial

theorem on_enter_first (anc : List Ancestor) (t : cmark_node_type)
    (lit : Option (List Char)) (lines : List TextLine) (h : first_not_spacer lines) :
    first_not_spacer (on_enter anc t lit lines) := by
  cases lines with
  | nil =>
    rcases on_enter_nil anc t lit with h0 | ⟨b, hb, hns⟩
    · rw [h0]; exact h
    · rw [hb]
      intro c hc
      simp only [List.head?_cons, Option.some.injEq] at hc
      rw [← hc]; exact hns
  | cons a rest =>
    rcases on_enter_append anc t lit (a :: rest) with h0 | ⟨b, hb⟩
    · rw [h0]; exact h
    · rw [hb]
      intro c hc
      exact h c (by simpa using hc)

mutual
theorem walk_first (anc : List Ancestor) :
    ∀ (n : cmark_node) (X : List TextLine), first_not_spacer X → first_not_spacer (walk anc n X)
  | .mk t lit lvl cs, X => by
    intro h
    rw [walk_mk]
    split_ifs
    · exact walk_children_first (⟨t, lvl⟩ :: anc) cs _ (on_enter_first anc t lit X h)
    · exact h
theorem walk_children_first (anc : List Ancestor) :
    ∀ (cs : List cmark_node) (X : List TextLine),
      first_not_spacer X → first_not_spacer (walk_children anc cs X)
  | [], X => by intro h; rw [walk_children_nil]; exact h
  | c :: cs, X => by
    intro h
    rw [walk_children_cons]
    exact walk_children_first anc cs _ (walk_first anc c X h)
end

theorem flatten_first (doc : cmark_node) : first_not_spacer (flatten doc) :=
  walk_first [] doc [] (by intro b hb; simp at hb)

theorem placeholder_text (g : TextLine) : (placeholder g).text = NO_CONTENT := rfl

theorem placeholder_text_ne_nil (g : TextLine) : (placeholder g).text ≠ [] := by
  rw [placeholder_text]; decide

/-- C11: when the traversal of a tree stores no line (as for a document node
without children), the array handed to the event loop consists of exactly one
line, whose text is the non-empty placeholder `No content to display`; when
the traversal stores at least one line, no placeholder is added; hence the
array is never empty. -/
theorem document_placeholder (garbage : TextLine) (doc : cmark_node) :
    (flatten doc = [] →
      document garbage doc = [placeholder garbage] ∧
      (placeholder garbage).text = "No content to display".toList ∧
      (placeholder garbage).text ≠ []) ∧
    (flatten doc ≠ [] → document garbage doc = flatten doc) ∧
    document garbage doc ≠ [] ∧
    flatten empty_doc = [] ∧
    document garbage empty_doc = [placeholder garbage] := by
  refine ⟨fun h => ⟨by simp [document, h], rfl, placeholder_text_ne_nil garbage⟩, fun h => ?_, ?_, by decide, ?_⟩
  · have : (flatten doc).length ≠ 0 := fun h0 => h (List.length_eq_zero.mp h0)
    simp [document, this]
  · unfold document
    dsimp only
    split_ifs with h
    · simp
    · exact fun h0 => h (by rw [h0]; rfl)
  · have : flatten empty_doc = [] := by decide
    simp [document, this]

theorem document_placeholder_witness :
    flatten empty_doc = [] ∧
    document (plain_line []) empty_doc = [placeholder (plain_line [])] ∧
    flatten title_doc ≠ [] ∧
    document (plain_line []) title_doc = flatten title_doc :=
  ⟨by decide,
    ((document_placeholder (plain_line []) empty_doc).1 (by decide)).1,
    by decide,
    (document_placeholder (plain_line []) title_doc).2.1 (by decide)⟩

/-- C15: the ENTER event of a paragraph, item or list stores nothing while
the array is empty, so a blank spacer is stored only after some line has been
stored; hence the first line of the traversal result and the first line of
the array handed to the event loop are never blank spacers (empty text with
`is_quote`, `monospace` and `is_hr` all zero). -/
theorem first_line_not_spacer (garbage : TextLine) (doc : cmark_node) :
    (∀ (anc : List Ancestor) (t : cmark_node_type) (lit : Option (List Char)),
      t = .PARAGRAPH ∨ t = .ITEM ∨ t = .LIST → on_enter anc t lit [] = []) ∧
    (∀ b, (flatten doc).head? = some b → ¬ is_plain_spacer b) ∧
    (∀ b, (document garbage doc).head? = some b → ¬ is_plain_spacer b) := by
  refine ⟨fun anc t lit ht => ?_, flatten_first doc, fun b hb => ?_⟩
  · have h1 : t ≠ .TEXT := by rcases ht with h | h | h <;> rw [h] <;> decide
    simp [on_enter, h1, ht]
  · unfold document at hb
    dsimp only at hb
    split_ifs at hb
    · simp only [List.head?_cons, Option.some.injEq] at hb
      rw [← hb]
      intro hs
      exact absurd hs.1 (placeholder_text_ne_nil garbage)
    · exact flatten_first doc b hb


theorem first_line_not_spacer_witness :
    (flatten two_paragraph_doc).head? = some (plain_line "a".toList) ∧
    ¬ is_plain_spacer (plain_line "a".toList) ∧
    on_enter [⟨.DOCUMENT, 0⟩] .PARAGRAPH none [] = [] :=
  ⟨by decide,
    (first_line_not_spacer (plain_line []) two_paragraph_doc).2.1 (plain_line "a".toList)
      (by decide),
    (first_line_not_spacer (plain_line []) two_paragraph_doc).1 [⟨.DOCUMENT, 0⟩] .PARAGRAPH
      none (Or.inl rfl)⟩

/-! ## More about word_wrap_text -/

theorem filter_skip_spaces (s : List Char) :
    (skip_spaces s).filter (· ≠ ' ') = s.filter (· ≠ ' ') := by
  induction s with
  | nil => simp [skip_spaces]
  | cons c t ih =>
    by_cases hc : c = ' '
    · have : skip_spaces (c :: t) = skip_spaces t := by
        simp [skip_spaces, List.dropWhile_cons, hc]
      rw [this, ih]
      simp [hc]
    · simp [skip_spaces, List.dropWhile_cons, hc]

theorem skip_spaces_head (s : List Char) : (skip_spaces s).head? ≠ some ' ' := by
  induction s with
  | nil => simp [skip_spaces]
  | cons c t ih =>
    by_cases hc : c = ' '
    · have : skip_spaces (c :: t) = skip_spaces t := by
        simp [skip_spaces, List.dropWhile_cons, hc]
      rw [this]; exact ih
    · simp [skip_spaces, List.dropWhile_cons, hc]

/-- When every non-space character fits alone, the lines hold the non-space
characters of the remainder they were cut from. -/
theorem filter_flatten_wrap (m : Metrics) (w : Int) :
    ∀ s, (∀ c ∈ s, c ≠ ' ' → m [c] ≤ w) →
      (word_wrap_text m w s).flatten.filter (· ≠ ' ') = s.filter (· ≠ ' ') := by
  apply wrap_induction m w
  · intro _; simp [word_wrap_text_nil]
  · intro s hs hf hfits
    exact absurd hf (fit_ne_zero m w s hs hfits)
  · intro s hs hf ih hfits
    have hsub : ∀ c ∈ skip_spaces (s.drop (fit m w s)), c ≠ ' ' → m [c] ≤ w := by
      intro c hc
      apply hfits
      exact List.mem_of_mem_drop ((List.dropWhile_sublist _).subset hc)
    rw [word_wrap_text_step m w s hs hf, List.flatten_cons, List.filter_append, ih hsub,
      filter_skip_spaces, ← List.filter_append, List.take_append_drop]

/-- A remainder that does not begin with a space is cut into lines none of
which begins with a space. -/
theorem wrap_heads (m : Metrics) (w : Int) :
    ∀ s, s.head? ≠ some ' ' → ∀ l ∈ word_wrap_text m w s, l.head? ≠ some ' ' := by
  apply wrap_induction m w
  · intro _ l hl; simp [word_wrap_text_nil] at hl
  · intro s _ hf _ l hl
    simp [word_wrap_text_stop m w s hf] at hl
  · intro s hs hf ih hhead l hl
    rw [word_wrap_text_step m w s hs hf] at hl
    rcases List.mem_cons.mp hl with h | h
    · rw [h]
      cases s with
      | nil => exact absurd rfl hs
      | cons c t =>
        obtain ⟨k, hk⟩ : ∃ k, fit m w (c :: t) = k + 1 := ⟨fit m w (c :: t) - 1, by omega⟩
        rw [hk]
        simpa using hhead
    · exact ih (skip_spaces_head _) l h

/-- C16: when every one-character string occurring in the text measures at
most `max_width`, the returned lines, concatenated and with all spaces
deleted, equal the text with all spaces deleted, and no line after the first
begins with a space. -/
theorem word_wrap_text_loses_only_spaces (m : Metrics) (max_width : Int) (text : List Char)
    (hfits : ∀ c ∈ text, m [c] ≤ max_width) :
    (word_wrap_text m max_width text).flatten.filter (· ≠ ' ') = text.filter (· ≠ ' ') ∧
    ∀ l ∈ (word_wrap_text m max_width text).tail, l.head? ≠ some ' ' := by
  refine ⟨filter_flatten_wrap m max_width text (fun c hc _ => hfits c hc), ?_⟩
  intro l hl
  by_cases hs : text = []
  · rw [hs, word_wrap_text_nil] at hl; simp at hl
  · by_cases hf : fit m max_width text = 0
    · rw [word_wrap_text_stop m max_width text hf] at hl; simp at hl
    · rw [word_wrap_text_step m max_width text hs hf, List.tail_cons] at hl
      exact wrap_heads m max_width _ (skip_spaces_head _) l hl

theorem word_wrap_text_loses_only_spaces_witness :
    (∀ c ∈ "aaa  bb c".toList, unit_metrics [c] ≤ 3) ∧
    (word_wrap_text unit_metrics 3 "aaa  bb c".toList).flatten.filter (· ≠ ' ')
      = "aaa  bb c".toList.filter (· ≠ ' ') ∧
    ∀ l ∈ (word_wrap_text unit_metrics 3 "aaa  bb c".toList).tail, l.head? ≠ some ' ' :=
  ⟨by decide, word_wrap_text_loses_only_spaces unit_metrics 3 "aaa  bb c".toList (by decide)⟩

/-! ## Rendering -/

theorem read_indices_top : read_indices 3 0 600 1 = [0, 1, 2] := by
  have hs : start_line 0 1 = 0 := by
    simpa using start_line_eval 0 0 20 1 f32_line_height_one (by norm_num) (by norm_num)
      (by norm_num) (by norm_num)
  have hv : visible_lines 600 1 = 31 := by
    simpa using visible_lines_eval 600 30 20 1 f32_line_height_one (by norm_num)
      (by norm_num) (by norm_num) (by norm_num)
  have he : end_line 3 0 600 1 = 3 := by
    unfold end_line
    dsimp only
    rw [hs, hv]
    decide
  rw [read_indices, hs, he]
  decide

theorem line_advance_one : line_advance 1 = 20 := by
  unfold line_advance
  rw [f32_line_height_one, c_int_natCast]
  rfl

/-- At zoom 1.0 in a window 800 pixels wide, with one pixel per character and
every draw call succeeding, a plain line advances `y` by 20 per wrapped line. -/
theorem render_plain_line (t : List Char) (y : Int) :
    render_block (fun _ _ => unit_metrics) (fun _ => true) 1 800 (plain_line t) y
      = y + 20 * ((word_wrap_text unit_metrics 780 t).length : Int) := by
  have hfold : ∀ (ls : List (List Char)) (y : Int),
      ls.foldl (fun y _ => y + (20 : Int)) y = y + 20 * (ls.length : Int) := by
    intro ls
    induction ls with
    | nil => intro y; simp
    | cons l ls ih =>
      intro y
      simp only [List.foldl_cons, ih, List.length_cons]
      push_cast
      ring
  simp [render_block, plain_line, line_advance_one, hfold]

/-- C13 (violated by the code): for every metrics function, zoom, window
width and value of `y`, the render step of a blank spacer line (empty text,
not a thematic break, no list item) leaves `y` unchanged, and so does the
render step of the blank line stored for a block quote: the empty text is
wrapped into zero lines and `y` is advanced only once per wrapped line.  One
line height is `(int)(LINE_HEIGHT * zoom)`, 20 at zoom 1.0.  The document with
the paragraphs `a` and `b` is flattened to `a`, a blank line and `b`, and its
frame at zoom 1.0 ends with `y = 40`: the blank line took no height. -/
theorem blank_line_does_not_advance :
    (∀ (metrics : FontMetrics) (draws : List Char → Bool) (zoom : ℚ) (window_width y : Int),
      render_block metrics draws zoom window_width (plain_line []) y = y ∧
      render_block metrics draws zoom window_width
        { plain_line [] with indent := 2, is_quote := 1 } y = y) ∧
    line_advance 1 = 20 ∧
    flatten two_paragraph_doc = [plain_line "a".toList, plain_line [], plain_line "b".toList] ∧
    render_frame (fun _ _ => unit_metrics) (fun _ => true) (flatten two_paragraph_doc)
      (initial_state 3 800 600) = 40 := by
  have hf : flatten two_paragraph_doc
      = [plain_line "a".toList, plain_line [], plain_line "b".toList] := by decide
  refine ⟨fun metrics draws zoom window_width y => ⟨?_, ?_⟩, line_advance_one, hf, ?_⟩
  · simp [render_block, plain_line, word_wrap_text_nil]
  · simp [render_block, plain_line, word_wrap_text_nil]
  · have hi : read_indices (([plain_line "a".toList, plain_line [], plain_line "b".toList] :
        List TextLine).length : Int) 0 600 1 = [0, 1, 2] := read_indices_top
    rw [hf]
    unfold render_frame
    simp only [initial_state]
    rw [hi]
    simp only [List.foldl_cons, List.foldl_nil]
    have h0 : ([plain_line "a".toList, plain_line [], plain_line "b".toList] :
        List TextLine).get? (0 : Int).toNat = some (plain_line "a".toList) := by decide
    have h1 : ([plain_line "a".toList, plain_line [], plain_line "b".toList] :
        List TextLine).get? (1 : Int).toNat = some (plain_line []) := by decide
    have h2 : ([plain_line "a".toList, plain_line [], plain_line "b".toList] :
        List TextLine).get? (2 : Int).toNat = some (plain_line "b".toList) := by decide
    rw [h0, h1, h2]
    simp only [render_plain_line]
    have wa : word_wrap_text unit_metrics 780 "a".toList = ["a".toList] := by decide
    have wb : word_wrap_text unit_metrics 780 "b".toList = ["b".toList] := by decide
    rw [wa, wb, word_wrap_text_nil]
    decide

/-- C14 (as stated, refuted): an event of any type other than quit, mouse
wheel and window event, such as mouse motion, leaves the viewport state
unchanged and sets `redraw`, so a redraw is performed. -/
theorem redraw_on_other_event :
    handle_event 100 (initial_state 100 800 600) .OTHER
      = (initial_state 100 800 600, true) := rfl

/-- C14 (amended): for every non-quit event the loop performs a redraw if and
only if the event is a mouse-wheel event (scroll or zoom), a window event of
kind size-changed or exposed, or an event of any other type; the window
events of other kinds are the only non-quit events without a redraw. -/
theorem redraw_iff (line_count : Int) (s : ViewState) (e : SDL_Event) (hq : e ≠ .QUIT) :
    (handle_event line_count s e).2 = true ↔
      ((∃ ctrl y, e = .MOUSEWHEEL ctrl y) ∨ (∃ w h, e = .WINDOWEVENT true w h) ∨ e = .OTHER) := by
  cases e with
  | QUIT => exact absurd rfl hq
  | MOUSEWHEEL ctrl y => cases ctrl <;> simp [handle_event]
  | WINDOWEVENT r w h => cases r <;> simp [handle_event]
  | OTHER => simp [handle_event]

theorem redraw_iff_witness :
    SDL_Event.OTHER ≠ SDL_Event.QUIT ∧
    (handle_event 100 (initial_state 100 800 600) .OTHER).2 = true :=
  ⟨by decide,
    (redraw_iff 100 (initial_state 100 800 600) .OTHER (by decide)).mpr (Or.inr (Or.inr rfl))⟩

theorem mem_frame_indices (a b i : Int) : i ∈ frame_indices a b ↔ a ≤ i ∧ i < b := by
  unfold frame_indices
  simp only [List.mem_map, List.mem_range]
  constructor
  · rintro ⟨k, hk, rfl⟩
    omega
  · rintro ⟨h1, h2⟩
    exact ⟨(i - a).toNat, by omega, by omega⟩

theorem start_line_nonneg (offset_y : Int) (zoom : ℚ) (ho : 0 ≤ offset_y) (hz : 0 < zoom) :
    0 ≤ start_line offset_y zoom := by
  have h := (line_quotient_err offset_y zoom ho hz).1
  unfold start_line
  rw [c_int_of_nonneg _ h]
  exact Int.floor_nonneg.mpr h

theorem end_line_le (line_count offset_y window_height : Int) (zoom : ℚ) :
    end_line line_count offset_y window_height zoom ≤ line_count := by
  unfold end_line
  dsimp only
  split_ifs <;> omega

/-- C17: for `offset_y >= 0`, zoom in [0.5, 3.0], `window_height >= 0` and
`line_count` in 1..10000, every index `i` taken by the render loop satisfies
`0 <= start_line <= i < end_line <= line_count`, so every read of the array of
`line_count` lines is inside the array. -/
theorem read_indices_in_bounds (line_count offset_y window_height : Int) (zoom : ℚ)
    (ho : 0 ≤ offset_y) (hz1 : 1 / 2 ≤ zoom) (_hz2 : zoom ≤ 3) (_hw : 0 ≤ window_height)
    (_hl1 : 1 ≤ line_count) (_hl2 : line_count ≤ 10000) :
    (∀ i ∈ read_indices line_count offset_y window_height zoom,
      0 ≤ start_line offset_y zoom ∧ start_line offset_y zoom ≤ i ∧
      i < end_line line_count offset_y window_height zoom ∧
      end_line line_count offset_y window_height zoom ≤ line_count) ∧
    (∀ lines : List TextLine, (lines.length : Int) = line_count →
      ∀ i ∈ read_indices line_count offset_y window_height zoom,
        ∃ b, lines.get? i.toNat = some b) := by
  have h0 := start_line_nonneg offset_y zoom ho (by linarith)
  have h1 := end_line_le line_count offset_y window_height zoom
  refine ⟨fun i hi => ?_, fun lines hlen i hi => ?_⟩
  · have := (mem_frame_indices _ _ i).mp hi
    exact ⟨h0, this.1, this.2, h1⟩
  · have := (mem_frame_indices _ _ i).mp hi
    have hlt : i.toNat < lines.length := by omega
    exact ⟨lines.get ⟨i.toNat, hlt⟩, List.get?_eq_get hlt⟩


theorem read_indices_in_bounds_witness :
    (0 : Int) ≤ 0 ∧ (1 / 2 : ℚ) ≤ 1 ∧ (1 : ℚ) ≤ 3 ∧ (0 : Int) ≤ 600 ∧ (1 : Int) ≤ 3 ∧
    (3 : Int) ≤ 10000 ∧ (1 : Int) ∈ read_indices 3 0 600 1 ∧
    (0 ≤ start_line 0 1 ∧ start_line 0 1 ≤ 1 ∧ 1 < end_line 3 0 600 1 ∧
      end_line 3 0 600 1 ≤ 3) :=
  ⟨by decide, by norm_num, by norm_num, by decide, by decide, by decide,
    by rw [read_indices_top]; decide,
    (read_indices_in_bounds 3 0 600 1 (by decide) (by norm_num) (by norm_num) (by decide)
      (by decide) (by decide)).1 1 (by rw [read_indices_top]; decide)⟩

/-- C18 (violated by the code): with 12 lines, after a resize to height 100,
five wheel notches down and ten Ctrl+wheel notches down (the tenth float
result falls below 0.5 and is clamped to 0.5), the state has `offset_y = 140`
and zoom 0.5, so the frame computes `start_line = 14` and
`end_line = 12`: `start_line >= line_count`, the visible range is empty and no
line is rendered. -/
theorem visible_range_empty_after_zoom_out :
    (run_events 12 (initial_state 12 800 600)
      (.WINDOWEVENT true 800 100 :: (List.replicate 5 (.MOUSEWHEEL false (-1)) ++
        List.replicate 10 (.MOUSEWHEEL true (-1))))) =
      { offset_y := 140, max_offset := 140, zoom := 1 / 2,
        window_width := 800, window_height := 100 } ∧
    start_line 140 (1 / 2) = 14 ∧
    end_line 12 140 100 (1 / 2) = 12 ∧
    read_indices 12 140 100 (1 / 2) = [] := by
  have hs : start_line 140 (1 / 2) = 14 := by
    simpa using start_line_eval 140 14 10 (1 / 2) f32_line_height_half (by norm_num)
      (by norm_num) (by norm_num) (by norm_num)
  have hv : visible_lines 100 (1 / 2) = 11 := by
    simpa using visible_lines_eval 100 10 10 (1 / 2) f32_line_height_half (by norm_num)
      (by norm_num) (by norm_num) (by norm_num)
  have he : end_line 12 140 100 (1 / 2) = 12 := by
    unfold end_line
    dsimp only
    rw [hs, hv]
    decide
  have h240 : c_int (f32 (f32 (((12 : Int) * LINE_HEIGHT : Int) : ℚ) * 1)) = 240 := by
    have e : (((12 : Int) * LINE_HEIGHT : Int) : ℚ) = ((240 : Nat) : ℚ) := by
      norm_num [LINE_HEIGHT, FONT_SIZE]
    rw [e, f32_nat 240 (by norm_num), mul_one, f32_nat 240 (by norm_num), c_int_natCast]
    rfl
  have hz1 : zoom_step 1 (-1) = 15938355 / 16777216 := zoom_step_out_one
  have hz2 : zoom_step (15938355 / 16777216) (-1) = 7549747 / 8388608 := by
    have h := f32_eval (15938355 / 16777216 - 13421773 / 268435456) (-1) 15099494
      (by rw [abs_of_pos (by norm_num)]; norm_num)
      (by rw [abs_of_pos (by norm_num)]; norm_num)
      (by rw [abs_lt]; constructor <;> norm_num)
    unfold zoom_step
    dsimp only
    rw [if_neg (by decide), if_pos (by decide), flt_0_05_eq, h]
    norm_num
  have hz3 : zoom_step (7549747 / 8388608) (-1) = 14260633 / 16777216 := by
    have h := f32_eval (7549747 / 8388608 - 13421773 / 268435456) (-1) 14260633
      (by rw [abs_of_pos (by norm_num)]; norm_num)
      (by rw [abs_of_pos (by norm_num)]; norm_num)
      (by rw [abs_lt]; constructor <;> norm_num)
    unfold zoom_step
    dsimp only
    rw [if_neg (by decide), if_pos (by decide), flt_0_05_eq, h]
    norm_num
  have hz4 : zoom_step (14260633 / 16777216) (-1) = 3355443 / 4194304 := by
    have h := f32_eval (14260633 / 16777216 - 13421773 / 268435456) (-1) 13421772
      (by rw [abs_of_pos (by norm_num)]; norm_num)
      (by rw [abs_of_pos (by norm_num)]; norm_num)
      (by rw [abs_lt]; constructor <;> norm_num)
    unfold zoom_step
    dsimp only
    rw [if_neg (by decide), if_pos (by decide), flt_0_05_eq, h]
    norm_num
  have hz5 : zoom_step (3355443 / 4194304) (-1) = 12582911 / 16777216 := by
    have h := f32_eval (3355443 / 4194304 - 13421773 / 268435456) (-1) 12582911
      (by rw [abs_of_pos (by norm_num)]; norm_num)
      (by rw [abs_of_pos (by norm_num)]; norm_num)
      (by rw [abs_lt]; constructor <;> norm_num)
    unfold zoom_step
    dsimp only
    rw [if_neg (by decide), if_pos (by decide), flt_0_05_eq, h]
    norm_num
  have hz6 : zoom_step (12582911 / 16777216) (-1) = 5872025 / 8388608 := by
    have h := f32_eval (12582911 / 16777216 - 13421773 / 268435456) (-1) 11744050
      (by rw [abs_of_pos (by norm_num)]; norm_num)
      (by rw [abs_of_pos (by norm_num)]; norm_num)
      (by rw [abs_lt]; constructor <;> norm_num)
    unfold zoom_step
    dsimp only
    rw [if_neg (by decide), if_pos (by decide), flt_0_05_eq, h]
    norm_num
  have hz7 : zoom_step (5872025 / 8388608) (-1) = 10905189 / 16777216 := by
    have h := f32_eval (5872025 / 8388608 - 13421773 / 268435456) (-1) 10905189
      (by rw [abs_of_pos (by norm_num)]; norm_num)
      (by rw [abs_of_pos (by norm_num)]; norm_num)
      (by rw [abs_lt]; constructor <;> norm_num)
    unfold zoom_step
    dsimp only
    rw [if_neg (by decide), if_pos (by decide), flt_0_05_eq, h]
    norm_num
  have hz8 : zoom_step (10905189 / 16777216) (-1) = 1258291 / 2097152 := by
    have h := f32_eval (10905189 / 16777216 - 13421773 / 268435456) (-1) 10066328
      (by rw [abs_of_pos (by norm_num)]; norm_num)
      (by rw [abs_of_pos (by norm_num)]; norm_num)
      (by rw [abs_lt]; constructor <;> norm_num)
    unfold zoom_step
    dsimp only
    rw [if_neg (by decide), if_pos (by decide), flt_0_05_eq, h]
    norm_num
  have hz9 : zoom_step (1258291 / 2097152) (-1) = 9227467 / 16777216 := by
    have h := f32_eval (1258291 / 2097152 - 13421773 / 268435456) (-1) 9227467
      (by rw [abs_of_pos (by norm_num)]; norm_num)
      (by rw [abs_of_pos (by norm_num)]; norm_num)
      (by rw [abs_lt]; constructor <;> norm_num)
    unfold zoom_step
    dsimp only
    rw [if_neg (by decide), if_pos (by decide), flt_0_05_eq, h]
    norm_num
  have hz10 : zoom_step (9227467 / 16777216) (-1) = 1 / 2 := by
    have h := f32_eval (9227467 / 16777216 - 13421773 / 268435456) (-2) 16777212
      (by rw [abs_of_pos (by norm_num)]; norm_num)
      (by rw [abs_of_pos (by norm_num)]; norm_num)
      (by rw [abs_lt]; constructor <;> norm_num)
    unfold zoom_step
    dsimp only
    rw [if_neg (by decide), if_pos (by decide), flt_0_05_eq, h]
    norm_num
  have e0 : initial_state 12 800 600 = ({ offset_y := 0, max_offset := 0, zoom := 1, window_width := 800, window_height := 600 } : ViewState) := by
    simp only [initial_state]
    norm_num [LINE_HEIGHT, FONT_SIZE]
  have t1 : (handle_event 12 { offset_y := 0, max_offset := 0, zoom := 1, window_width := 800, window_height := 600 } (.WINDOWEVENT true 800 100)).1
      = { offset_y := 0, max_offset := 140, zoom := 1, window_width := 800, window_height := 100 } := by
    simp only [handle_event]
    rw [h240]
    norm_num
  have t2 : (handle_event 12 { offset_y := 0, max_offset := 140, zoom := 1, window_width := 800, window_height := 100 } (.MOUSEWHEEL false (-1))).1
      = { offset_y := 30, max_offset := 140, zoom := 1, window_width := 800, window_height := 100 } := by
    simp only [handle_event]
    rw [scroll_step_one]
    norm_num
  have t3 : (handle_event 12 { offset_y := 30, max_offset := 140, zoom := 1, window_width := 800, window_height := 100 } (.MOUSEWHEEL false (-1))).1
      = { offset_y := 60, max_offset := 140, zoom := 1, window_width := 800, window_height := 100 } := by
    simp only [handle_event]
    rw [scroll_step_one]
    norm_num
  have t4 : (handle_event 12 { offset_y := 60, max_offset := 140, zoom := 1, window_width := 800, window_height := 100 } (.MOUSEWHEEL false (-1))).1
      = { offset_y := 90, max_offset := 140, zoom := 1, window_width := 800, window_height := 100 } := by
    simp only [handle_event]
    rw [scroll_step_one]
    norm_num
  have t5 : (handle_event 12 { offset_y := 90, max_offset := 140, zoom := 1, window_width := 800, window_height := 100 } (.MOUSEWHEEL false (-1))).1
      = { offset_y := 120, max_offset := 140, zoom := 1, window_width := 800, window_height := 100 } := by
    simp only [handle_event]
    rw [scroll_step_one]
    norm_num
  have t6 : (handle_event 12 { offset_y := 120, max_offset := 140, zoom := 1, window_width := 800, window_height := 100 } (.MOUSEWHEEL false (-1))).1
      = { offset_y := 140, max_offset := 140, zoom := 1, window_width := 800, window_height := 100 } := by
    simp only [handle_event]
    rw [scroll_step_one]
    norm_num
  have t7 : (handle_event 12 { offset_y := 140, max_offset := 140, zoom := 1, window_width := 800, window_height := 100 } (.MOUSEWHEEL true (-1))).1
      = { offset_y := 140, max_offset := 140, zoom := 15938355 / 16777216, window_width := 800, window_height := 100 } := by
    simp only [handle_event]
    rw [hz1]
  have t8 : (handle_event 12 { offset_y := 140, max_offset := 140, zoom := 15938355 / 16777216, window_width := 800, window_height := 100 } (.MOUSEWHEEL true (-1))).1
      = { offset_y := 140, max_offset := 140, zoom := 7549747 / 8388608, window_width := 800, window_height := 100 } := by
    simp only [handle_event]
    rw [hz2]
  have t9 : (handle_event 12 { offset_y := 140, max_offset := 140, zoom := 7549747 / 8388608, window_width := 800, window_height := 100 } (.MOUSEWHEEL true (-1))).1
      = { offset_y := 140, max_offset := 140, zoom := 14260633 / 16777216, window_width := 800, window_height := 100 } := by
    simp only [handle_event]
    rw [hz3]
  have t10 : (handle_event 12 { offset_y := 140, max_offset := 140, zoom := 14260633 / 16777216, window_width := 800, window_height := 100 } (.MOUSEWHEEL true (-1))).1
      = { offset_y := 140, max_offset := 140, zoom := 3355443 / 4194304, window_width := 800, window_height := 100 } := by
    simp only [handle_event]
    rw [hz4]
  have t11 : (handle_event 12 { offset_y := 140, max_offset := 140, zoom := 3355443 / 4194304, window_width := 800, window_height := 100 } (.MOUSEWHEEL true (-1))).1
      = { offset_y := 140, max_offset := 140, zoom := 12582911 / 16777216, window_width := 800, window_height := 100 } := by
    simp only [handle_event]
    rw [hz5]
  have t12 : (handle_event 12 { offset_y := 140, max_offset := 140, zoom := 12582911 / 16777216, window_width := 800, window_height := 100 } (.MOUSEWHEEL true (-1))).1
      = { offset_y := 140, max_offset := 140, zoom := 5872025 / 8388608, window_width := 800, window_height := 100 } := by
    simp only [handle_event]
    rw [hz6]
  have t13 : (handle_event 12 { offset_y := 140, max_offset := 140, zoom := 5872025 / 8388608, window_width := 800, window_height := 100 } (.MOUSEWHEEL true (-1))).1
      = { offset_y := 140, max_offset := 140, zoom := 10905189 / 16777216, window_width := 800, window_height := 100 } := by
    simp only [handle_event]
    rw [hz7]
  have t14 : (handle_event 12 { offset_y := 140, max_offset := 140, zoom := 10905189 / 16777216, window_width := 800, window_height := 100 } (.MOUSEWHEEL true (-1))).1
      = { offset_y := 140, max_offset := 140, zoom := 1258291 / 2097152, window_width := 800, window_height := 100 } := by
    simp only [handle_event]
    rw [hz8]
  have t15 : (handle_event 12 { offset_y := 140, max_offset := 140, zoom := 1258291 / 2097152, window_width := 800, window_height := 100 } (.MOUSEWHEEL true (-1))).1
      = { offset_y := 140, max_offset := 140, zoom := 9227467 / 16777216, window_width := 800, window_height := 100 } := by
    simp only [handle_event]
    rw [hz9]
  have t16 : (handle_event 12 { offset_y := 140, max_offset := 140, zoom := 9227467 / 16777216, window_width := 800, window_height := 100 } (.MOUSEWHEEL true (-1))).1
      = { offset_y := 140, max_offset := 140, zoom := 1 / 2, window_width := 800, window_height := 100 } := by
    simp only [handle_event]
    rw [hz10]
  refine ⟨?_, hs, he, ?_⟩
  · simp only [List.replicate, List.cons_append, List.nil_append]
    rw [e0, run_events_window, t1, run_events_wheel, t2, run_events_wheel,
      t3, run_events_wheel, t4, run_events_wheel, t5, run_events_wheel,
      t6, run_events_wheel, t7, run_events_wheel, t8, run_events_wheel,
      t9, run_events_wheel, t10, run_events_wheel, t11, run_events_wheel,
      t12, run_events_wheel, t13, run_events_wheel, t14, run_events_wheel,
      t15, run_events_wheel, t16, run_events]
  · rw [read_indices, hs, he]
    decide

/-- C19 (violated by the code): for the empty document the array consists of
the placeholder line, whose `indent`, `monospace`, `is_list_item`, `is_hr` and
`is_quote` are whatever the uninitialised array element held; when that
element held `is_hr = 1`, the render step draws the placeholder as a rule
(it takes the thematic-break branch) instead of as text. -/
theorem placeholder_keeps_garbage (garbage : TextLine) :
    document garbage empty_doc = [placeholder garbage] ∧
    (placeholder garbage).indent = garbage.indent ∧
    (placeholder garbage).monospace = garbage.monospace ∧
    (placeholder garbage).is_list_item = garbage.is_list_item ∧
    (placeholder garbage).is_hr = garbage.is_hr ∧
    (placeholder garbage).is_quote = garbage.is_quote ∧
    (∀ (metrics : FontMetrics) (draws : List Char → Bool) (zoom : ℚ) (window_width y : Int),
      render_block metrics draws zoom window_width
        (placeholder { garbage with is_hr := 1 }) y = y + line_advance zoom) := by
  have : flatten empty_doc = [] := by decide
  refine ⟨by simp [document, this], rfl, rfl, rfl, rfl, rfl, ?_⟩
  intro metrics draws zoom window_width y
  simp [render_block, placeholder]

end FastMdViewer
